import Mathlib

/-!
# AutoTrade strategy: order-lifecycle state machine, and the Alpaca provider

A shallow embedding of `AutoTrade/Strategy.cpp` (the moving-average strategy of
trade-frame) and theorems about its constructor, its quote handler
`Strategy::HandleQuote`, its tick handler `Strategy::HandleRHTrading`, its
order-notification handlers `Strategy::HandleOrderFilled` /
`Strategy::HandleOrderCancelled` and `Strategy::CloseAndDone`; and of
`lib/TFAlpaca/Provider.cpp`: the response handler of `Provider::Connect` that fills the
asset directory, and `Provider::PlaceOrder`, which encodes an order as a JSON request.

Conventions of the embedding

* A C++ `double` is a `Dbl`: NaN, the two infinities, or a finite value taken as a
  rational. Only the comparisons `<` and `>` of the source are used; they are IEEE
  comparisons (false as soon as one side is NaN).
* `m_pOrder` (a `shared_ptr<Order>`) is `Option Nat`: `none` is the null pointer,
  `some id` points to the `id`-th order constructed by the position. Dereferencing a
  pointer that designates no order is `Outcome.undefined`.
* `assert( false )` aborts the process unless the translation unit is compiled with
  `NDEBUG`; the build mode is the parameter `ndebug` of the two notification handlers.
* Every call the strategy makes on a collaborator (the position, the delegate lists of
  an order, the release of `m_pOrder`) is appended to `Strategy.trace`, in program
  order; the fields of the source keep their names.
* `Position::PlaceOrder` and `Position::ClosePosition` (TFTrading, not part of these
  sources) return without calling back into the strategy: a fill or a cancel arrives
  later, as an event of its own (`Event.fill`, `Event.cancel`).
* The strategy is taken after `SetPosition`: `m_pPosition` is set and `m_vMA` holds its
  three moving averages.
* Functions of libraries outside these sources that a handler calls and whose result
  matters (`json::parse`, `Asset::Decode`, `json::serialize`, `MA::Update`,
  `BarFactory::Add`, ...) are parameters of the handler.
* `std::cout` is the list of the lines written, and the `one_shot` sessions are the list
  of the requests handed to them.
-/

namespace AutoTrade

/-! ## Values -/

/-- A C++ `double`, as far as ordering comparisons can tell. -/
inductive Dbl where
  | nan
  | negInf
  | fin (q : ℚ)
  | posInf
  deriving DecidableEq

/-- IEEE `a < b` on doubles: false when either operand is NaN. -/
def Dbl.lt : Dbl → Dbl → Bool
  | .fin a, .fin b => decide (a < b)
  | .negInf, .fin _ => true
  | .negInf, .posInf => true
  | .fin _, .posInf => true
  | _, _ => false

instance : LT Dbl := ⟨fun a b => Dbl.lt a b = true⟩

instance (a b : Dbl) : Decidable (a < b) := inferInstanceAs (Decidable (Dbl.lt a b = true))

/-- A `boost::posix_time::ptime`, as an abstract instant. -/
abbrev ptime := Nat

/-- The bar handed to the tick handler; only `bar.DateTime()` is read. -/
structure Bar where
  DateTime : ptime
  deriving DecidableEq

/-- The enumeration `ETradeState` of the strategy. -/
inductive ETradeState where
  | Init
  | Search
  | LongSubmitted
  | LongExit
  | ShortSubmitted
  | ShortExit
  | ExitSubmitted
  | Done
  deriving DecidableEq, Repr

/-- The enumerators of `ou::tf::OrderType` that the sources name; `Unknown` stands for
every other enumerator. -/
inductive OrderType where
  | Unknown
  | Market
  | Limit
  | Stop
  | StopLimit
  deriving DecidableEq, Repr

/-- The enumerators of `ou::tf::OrderSide` that the sources name; `Unknown` stands for
every other enumerator. -/
inductive OrderSide where
  | Unknown
  | Buy
  | Sell
  deriving DecidableEq, Repr

/-- A delegate bound by `MakeDelegate`: one of the two handlers of this strategy, or a
callback of some other subscriber. -/
inductive Delegate where
  | HandleOrderCancelled
  | HandleOrderFilled
  | other (n : Nat)
  deriving DecidableEq, Repr

/-- Modelled from the spec: `ou::Delegate<>::Add` (OUCommon, absent from the sources),
"manual add/remove of callback references": the reference is appended to the list. -/
def Delegate.Add (l : List Delegate) (d : Delegate) : List Delegate := l ++ [d]

/-- Modelled from the spec: `ou::Delegate<>::Remove` (OUCommon, absent from the
sources), "manual add/remove of callback references": one matching reference is taken
out of the list; a list without a match is left as it is. -/
def Delegate.Remove (l : List Delegate) (d : Delegate) : List Delegate := l.erase d

/-- The part of `ou::tf::Order` the strategy touches. -/
structure Order where
  eOrderType : OrderType
  eOrderSide : OrderSide
  nOrderQuantity : Nat
  dtOrderFilled : ptime
  OnOrderCancelled : List Delegate
  OnOrderFilled : List Delegate
  deriving DecidableEq

/-- The two delegate lists of an order. -/
inductive OrderEvent where
  | OnOrderCancelled
  | OnOrderFilled
  deriving DecidableEq, Repr

/-- A label of a `ChartEntryShape`: `AddLabel( dt, price, text )`. -/
structure Label where
  dt : ptime
  price : Dbl
  text : String
  deriving DecidableEq

/-- Modelled from the spec: `ou::ChartEntryShape::AddLabel` (OUCharting, absent from the
sources), "labeled event markers (entry/exit/fill) with timestamp+price+text": the marker
is appended to the series. -/
def AddLabel (series : List Label) (dt : ptime) (price : Dbl) (text : String) : List Label :=
  series ++ [{ dt := dt, price := price, text := text }]

/-- The calls the strategy makes on its collaborators. -/
inductive Effect where
  | ConstructOrder (id : Nat) (type : OrderType) (side : OrderSide) (qty : Nat)
  | Add (id : Nat) (ev : OrderEvent) (d : Delegate)
  | Remove (id : Nat) (ev : OrderEvent) (d : Delegate)
  | PlaceOrder (id : Nat) (order : Order)
  | ClosePosition
  | reset (id : Nat)
  deriving DecidableEq

/-- The current prices `m_vMA[0..2].m_dblPrice` of the three moving averages that
`SetPosition` installs. -/
structure MAPrices where
  ma1 : Dbl
  ma2 : Dbl
  ma3 : Dbl
  deriving DecidableEq

/-- The members of `Strategy` that the state machine reads and writes, the orders of its
position, and the trace of collaborator calls. -/
structure Strategy where
  m_stateTrade : ETradeState
  m_pOrder : Option Nat
  m_dblMid : Dbl
  m_vMA : MAPrices
  m_ceShortEntry : List Label
  m_ceLongEntry : List Label
  m_ceShortFill : List Label
  m_ceLongFill : List Label
  m_ceShortExit : List Label
  m_ceLongExit : List Label
  orders : List Order
  trace : List Effect
  deriving DecidableEq

/-- How a handler ends: it returns, the process aborts on a failed assertion, or the
behaviour is undefined (a null `m_pOrder` is dereferenced). -/
inductive Outcome (α : Type) where
  | ok (s : α)
  | abort (s : α)
  | undefined
  deriving DecidableEq

/-! ## Collaborator calls -/

/-- The call `m_pOrder = m_pPosition->ConstructOrder( type, side, qty )`: a fresh order
without subscribers, owned through `m_pOrder`. -/
def Strategy.ConstructOrder (s : Strategy) (type : OrderType) (side : OrderSide) (qty : Nat) :
    Strategy :=
  { s with
    m_pOrder := some s.orders.length
    orders := s.orders ++ [{ eOrderType := type, eOrderSide := side, nOrderQuantity := qty,
                             dtOrderFilled := 0, OnOrderCancelled := [], OnOrderFilled := [] }]
    trace := s.trace ++ [.ConstructOrder s.orders.length type side qty] }

/-- The object `*m_pOrder`, when `m_pOrder` designates one. -/
def Strategy.pending (s : Strategy) : Option Order :=
  match s.m_pOrder with
  | none => none
  | some id => s.orders[id]?

/-- Apply `f` to the order `id` of the position. -/
def Strategy.updateOrder (s : Strategy) (id : Nat) (f : Order → Order) : Strategy :=
  match s.orders[id]? with
  | none => s
  | some o => { s with orders := s.orders.set id (f o) }

/-- The calls `m_pOrder->OnOrderCancelled.Add( d )` and `m_pOrder->OnOrderFilled.Add( d )`
on the order `id`. -/
def Strategy.Add (s : Strategy) (id : Nat) (ev : OrderEvent) (d : Delegate) : Strategy :=
  let s1 := match ev with
    | .OnOrderCancelled =>
        s.updateOrder id (fun o => { o with OnOrderCancelled := Delegate.Add o.OnOrderCancelled d })
    | .OnOrderFilled =>
        s.updateOrder id (fun o => { o with OnOrderFilled := Delegate.Add o.OnOrderFilled d })
  { s1 with trace := s1.trace ++ [.Add id ev d] }

/-- The calls `m_pOrder->OnOrderCancelled.Remove( d )` and
`m_pOrder->OnOrderFilled.Remove( d )` on the order `id`. -/
def Strategy.Remove (s : Strategy) (id : Nat) (ev : OrderEvent) (d : Delegate) : Strategy :=
  let s1 := match ev with
    | .OnOrderCancelled =>
        s.updateOrder id
          (fun o => { o with OnOrderCancelled := Delegate.Remove o.OnOrderCancelled d })
    | .OnOrderFilled =>
        s.updateOrder id (fun o => { o with OnOrderFilled := Delegate.Remove o.OnOrderFilled d })
  { s1 with trace := s1.trace ++ [.Remove id ev d] }

/-- The call `m_pPosition->PlaceOrder( m_pOrder )`: the position receives the order as it
is at the time of the call. -/
def Strategy.PlaceOrder (s : Strategy) (id : Nat) : Strategy :=
  match s.orders[id]? with
  | none => s
  | some o => { s with trace := s.trace ++ [.PlaceOrder id o] }

/-- The call `m_pOrder.reset()` while `m_pOrder` holds the order `id`. -/
def Strategy.reset (s : Strategy) (id : Nat) : Strategy :=
  { s with m_pOrder := none, trace := s.trace ++ [.reset id] }

/-! ## The handlers of `Strategy.cpp` -/

/-- The tick handler `Strategy::HandleRHTrading( bar )`, called once a second during
regular trading hours. -/
def HandleRHTrading (bar : Bar) (s : Strategy) : Strategy :=
  let ma1 := s.m_vMA.ma1
  let ma2 := s.m_vMA.ma2
  let ma3 := s.m_vMA.ma3
  match s.m_stateTrade with
  | .Search =>
    if ma1 > ma3 ∧ ma2 > ma3 ∧ s.m_dblMid > ma1 then
      -- enter long
      let id := s.orders.length
      let s := s.ConstructOrder .Market .Buy 100
      let s := s.Add id .OnOrderCancelled .HandleOrderCancelled
      let s := s.Add id .OnOrderFilled .HandleOrderFilled
      let s := { s with m_ceLongEntry := AddLabel s.m_ceLongEntry bar.DateTime s.m_dblMid "Long Submit" }
      let s := { s with m_stateTrade := .LongSubmitted }
      s.PlaceOrder id
    else if ma1 < ma3 ∧ ma2 < ma3 ∧ s.m_dblMid < ma1 then
      -- enter short
      let id := s.orders.length
      let s := s.ConstructOrder .Market .Sell 100
      let s := s.Add id .OnOrderCancelled .HandleOrderCancelled
      let s := s.Add id .OnOrderFilled .HandleOrderFilled
      let s := { s with m_ceShortEntry := AddLabel s.m_ceShortEntry bar.DateTime s.m_dblMid "Short Submit" }
      let s := { s with m_stateTrade := .ShortSubmitted }
      s.PlaceOrder id
    else s
  | .LongSubmitted => s
  | .LongExit =>
    if ma1 < ma3 then
      -- exit long
      let id := s.orders.length
      let s := s.ConstructOrder .Market .Sell 100
      let s := s.Add id .OnOrderCancelled .HandleOrderCancelled
      let s := s.Add id .OnOrderFilled .HandleOrderFilled
      let s := { s with m_ceLongExit := AddLabel s.m_ceLongExit bar.DateTime s.m_dblMid "Long Exit" }
      let s := { s with m_stateTrade := .ExitSubmitted }
      s.PlaceOrder id
    else s
  | .ShortSubmitted => s
  | .ShortExit =>
    if ma1 > ma3 then
      -- exit short
      let id := s.orders.length
      let s := s.ConstructOrder .Market .Buy 100
      let s := s.Add id .OnOrderCancelled .HandleOrderCancelled
      let s := s.Add id .OnOrderFilled .HandleOrderFilled
      let s := { s with m_ceShortExit := AddLabel s.m_ceShortExit bar.DateTime s.m_dblMid "Short Exit" }
      let s := { s with m_stateTrade := .ExitSubmitted }
      s.PlaceOrder id
    else s
  | .ExitSubmitted => s
  | .Done => s
  | .Init => { s with m_stateTrade := .Search }

/-- The cancel handler `Strategy::HandleOrderCancelled( const Order& )`; its argument is
not read. -/
def HandleOrderCancelled (ndebug : Bool) (_order : Order) (s : Strategy) : Outcome Strategy :=
  match s.m_pOrder with
  | none => .undefined
  | some id =>
    match s.orders[id]? with
    | none => .undefined
    | some _ =>
      let s := s.Remove id .OnOrderCancelled .HandleOrderCancelled
      let s := s.Remove id .OnOrderFilled .HandleOrderFilled
      match s.m_stateTrade with
      | .ExitSubmitted =>
        -- assert( false )
        if ndebug then .ok (s.reset id) else .abort s
      | _ => .ok ({ s with m_stateTrade := .Search }.reset id)

/-- The fill handler `Strategy::HandleOrderFilled( const Order& order )`. -/
def HandleOrderFilled (ndebug : Bool) (order : Order) (s : Strategy) : Outcome Strategy :=
  match s.m_pOrder with
  | none => .undefined
  | some id =>
    match s.orders[id]? with
    | none => .undefined
    | some _ =>
      let s := s.Remove id .OnOrderCancelled .HandleOrderCancelled
      let s := s.Remove id .OnOrderFilled .HandleOrderFilled
      match s.m_stateTrade with
      | .LongSubmitted =>
        let s := { s with m_ceLongFill := AddLabel s.m_ceLongFill order.dtOrderFilled s.m_dblMid "Long Fill" }
        .ok ({ s with m_stateTrade := .LongExit }.reset id)
      | .ShortSubmitted =>
        let s := { s with m_ceShortFill := AddLabel s.m_ceShortFill order.dtOrderFilled s.m_dblMid "Short Fill" }
        .ok ({ s with m_stateTrade := .ShortExit }.reset id)
      | .ExitSubmitted => .ok ({ s with m_stateTrade := .Search }.reset id)
      | _ =>
        -- assert( false )
        if ndebug then .ok (s.reset id) else .abort s

/-- The member `Strategy::CloseAndDone()`. -/
def CloseAndDone (s : Strategy) : Strategy :=
  { s with trace := s.trace ++ [.ClosePosition], m_stateTrade := .Done }

/-! ## Observations on traces -/

/-- An order after both handlers of the strategy have been taken off its delegate
lists. -/
def Order.deregistered (o : Order) : Order :=
  { o with OnOrderCancelled := Delegate.Remove o.OnOrderCancelled .HandleOrderCancelled
           OnOrderFilled := Delegate.Remove o.OnOrderFilled .HandleOrderFilled }

/-- The two `Remove` calls that open both notification handlers, in program order. -/
def removeTrace (id : Nat) : List Effect :=
  [.Remove id .OnOrderCancelled .HandleOrderCancelled,
   .Remove id .OnOrderFilled .HandleOrderFilled]

/-- The strategy after the two `Remove` calls on its pending order `id`, whose value
was `o`. -/
def Strategy.deregistered (s : Strategy) (id : Nat) (o : Order) : Strategy :=
  { s with orders := s.orders.set id o.deregistered, trace := s.trace ++ removeTrace id }

/-- The number of registrations of the strategy on an order: its cancel handler on the
cancel list plus its fill handler on the fill list. -/
def Order.registrations (o : Order) : Nat :=
  o.OnOrderCancelled.count .HandleOrderCancelled + o.OnOrderFilled.count .HandleOrderFilled

/-- The orders handed to `Position::PlaceOrder`, oldest first. -/
def placed : List Effect → List Order
  | [] => []
  | .PlaceOrder _ o :: t => o :: placed t
  | _ :: t => placed t

/-- The handles created by `Position::ConstructOrder`, oldest first. -/
def constructed : List Effect → List Nat
  | [] => []
  | .ConstructOrder id _ _ _ :: t => id :: constructed t
  | _ :: t => constructed t

/-- The order a submitting branch of the tick handler hands to the position: a market
order for 100 on which the two handlers of the strategy are registered. -/
def Order.submitted (side : OrderSide) : Order :=
  { eOrderType := .Market, eOrderSide := side, nOrderQuantity := 100, dtOrderFilled := 0,
    OnOrderCancelled := [.HandleOrderCancelled], OnOrderFilled := [.HandleOrderFilled] }

/-- The trace a submitting branch of the tick handler leaves for the order `id`. -/
def submitTrace (id : Nat) (side : OrderSide) : List Effect :=
  [.ConstructOrder id .Market side 100,
   .Add id .OnOrderCancelled .HandleOrderCancelled,
   .Add id .OnOrderFilled .HandleOrderFilled,
   .PlaceOrder id (Order.submitted side)]

/-! ## Sequences of session ticks -/

/-- A session tick, with the indicator prices and the midpoint that the quotes received
since the previous tick have left in `m_vMA` and `m_dblMid`. -/
structure Tick where
  bar : Bar
  ma : MAPrices
  mid : Dbl
  deriving DecidableEq

/-- The long-entry condition `ma1 > ma3 && ma2 > ma3 && mid > ma1` on the values of a
tick. -/
def Tick.longSignal (t : Tick) : Prop :=
  t.ma.ma1 > t.ma.ma3 ∧ t.ma.ma2 > t.ma.ma3 ∧ t.mid > t.ma.ma1

instance (t : Tick) : Decidable t.longSignal :=
  inferInstanceAs (Decidable (_ ∧ _ ∧ _))

/-- The short-entry condition `ma1 < ma3 && ma2 < ma3 && mid < ma1` on the values of a
tick. -/
def Tick.shortSignal (t : Tick) : Prop :=
  t.ma.ma1 < t.ma.ma3 ∧ t.ma.ma2 < t.ma.ma3 ∧ t.mid < t.ma.ma1

instance (t : Tick) : Decidable t.shortSignal :=
  inferInstanceAs (Decidable (_ ∧ _ ∧ _))

/-- One session tick: the indicator values of the tick are in place when
`HandleRHTrading` runs. -/
def Strategy.tick (s : Strategy) (t : Tick) : Strategy :=
  HandleRHTrading t.bar { s with m_vMA := t.ma, m_dblMid := t.mid }

/-- A sequence of session ticks with no notification in between. -/
def runTicks : Strategy → List Tick → Strategy
  | s, [] => s
  | s, t :: ts => runTicks (s.tick t) ts

/-- The number of ticks of the sequence that are processed in `Search` and on which the
long-entry condition holds. -/
def longSignalsInSearch : Strategy → List Tick → Nat
  | _, [] => 0
  | s, t :: ts =>
    (if s.m_stateTrade = .Search ∧ t.longSignal then 1 else 0) + longSignalsInSearch (s.tick t) ts

/-! ## Runs: ticks, notifications for the pending order, `CloseAndDone` -/

/-- What can happen to the strategy: a session tick, the fill or the cancel notification
of the order `m_pOrder` designates, or a call of `CloseAndDone`. -/
inductive Event where
  | tick (t : Tick)
  | fill (dt : ptime)
  | cancel
  | CloseAndDone
  deriving DecidableEq

/-- One event. A notification is delivered for the pending order: the handler receives
that order (stamped with its fill time, for a fill); with no pending order there is
nothing to deliver a notification for and the run is not defined. -/
def step (ndebug : Bool) (s : Strategy) : Event → Outcome Strategy
  | .tick t => .ok (s.tick t)
  | .fill dt =>
    match s.pending with
    | none => .undefined
    | some o => HandleOrderFilled ndebug { o with dtOrderFilled := dt } s
  | .cancel =>
    match s.pending with
    | none => .undefined
    | some o => HandleOrderCancelled ndebug o s
  | .CloseAndDone => .ok (CloseAndDone s)

/-- A sequence of events; it stops at the first handler that does not return. -/
def run (ndebug : Bool) : Strategy → List Event → Outcome Strategy
  | s, [] => .ok s
  | s, e :: es =>
    match step ndebug s e with
    | .ok s' => run ndebug s' es
    | r => r

/-- An example strategy in `Search` with no order in flight. -/
def exampleSearch : Strategy :=
  { m_stateTrade := .Search, m_pOrder := none, m_dblMid := .fin 10.3,
    m_vMA := ⟨.fin 10.2, .fin 10.1, .fin 9.8⟩,
    m_ceShortEntry := [], m_ceLongEntry := [], m_ceShortFill := [], m_ceLongFill := [],
    m_ceShortExit := [], m_ceLongExit := [], orders := [], trace := [] }

/-- The strategy after `exampleSearch` has seen one tick (a long entry, order 0 placed)
and `CloseAndDone` has then been called: state `Done`, order 0 still pending. -/
def exampleDonePending : Strategy :=
  CloseAndDone (HandleRHTrading ⟨7⟩ exampleSearch)

/-- A strategy whose exit order (order 1, a SELL closing a long position) is in flight. -/
def exampleExitSubmitted : Strategy :=
  { m_stateTrade := .ExitSubmitted, m_pOrder := some 1, m_dblMid := .fin 9.6,
    m_vMA := ⟨.fin 9.7, .fin 9.75, .fin 9.9⟩,
    m_ceShortEntry := [], m_ceLongEntry := [⟨7, .fin 10.3, "Long Submit"⟩], m_ceShortFill := [],
    m_ceLongFill := [⟨8, .fin 10.31, "Long Fill"⟩], m_ceShortExit := [],
    m_ceLongExit := [⟨9, .fin 9.6, "Long Exit"⟩],
    orders := [{ Order.submitted .Buy with OnOrderCancelled := [], OnOrderFilled := [] },
               Order.submitted .Sell],
    trace := submitTrace 0 .Buy ++
      [.Remove 0 .OnOrderCancelled .HandleOrderCancelled,
       .Remove 0 .OnOrderFilled .HandleOrderFilled, .reset 0] ++ submitTrace 1 .Sell }

/-- The invariant of the order handle: (a) in `Init`, `Search`, `LongExit` and `ShortExit`
no order is pending; (b) a pending order exists in the position and carries exactly one
cancel and one fill registration of the strategy; (c) every other order carries none. -/
structure Inv (s : Strategy) : Prop where
  idle : s.m_stateTrade = .Init ∨ s.m_stateTrade = .Search ∨ s.m_stateTrade = .LongExit ∨
    s.m_stateTrade = .ShortExit → s.m_pOrder = none
  pending : ∀ id, s.m_pOrder = some id → ∃ o, s.orders[id]? = some o ∧
    o.OnOrderCancelled.count .HandleOrderCancelled = 1 ∧
    o.OnOrderFilled.count .HandleOrderFilled = 1
  others : ∀ i o, s.orders[i]? = some o → s.m_pOrder ≠ some i → o.registrations = 0

/-- A strategy holding a long position (order 0, a BUY, filled and released) at a moment
when `ma1 = 9.7 < ma3 = 9.9`. -/
def exampleLongExit : Strategy :=
  { m_stateTrade := .LongExit, m_pOrder := none, m_dblMid := .fin 9.6,
    m_vMA := ⟨.fin 9.7, .fin 9.75, .fin 9.9⟩,
    m_ceShortEntry := [], m_ceLongEntry := [⟨7, .fin 10.3, "Long Submit"⟩], m_ceShortFill := [],
    m_ceLongFill := [⟨8, .fin 10.31, "Long Fill"⟩], m_ceShortExit := [], m_ceLongExit := [],
    orders := [{ Order.submitted .Buy with OnOrderCancelled := [], OnOrderFilled := [] }],
    trace := submitTrace 0 .Buy ++ removeTrace 0 ++ [.reset 0] }

/-- The strategy as its constructor leaves it: state `Init`, a null `m_pOrder`, and none
of its handlers registered on an order of the position. -/
def Strategy.IsInitial (s : Strategy) : Prop :=
  s.m_stateTrade = .Init ∧ s.m_pOrder = none ∧ ∀ o ∈ s.orders, o.registrations = 0

/-- An example strategy as constructed. -/
def exampleInit : Strategy := { exampleSearch with m_stateTrade := .Init }

/-- An example tick with the long-entry signal `ma1 = 10.2`, `ma2 = 10.1`, `ma3 = 9.8`,
`mid = 10.3`. -/
def exampleTick : Tick := ⟨⟨7⟩, ⟨.fin 10.2, .fin 10.1, .fin 9.8⟩, .fin 10.3⟩

/-- An example tick with the long-exit signal `ma1 = 9.7`, `ma3 = 9.9`. -/
def exampleExitTick : Tick := ⟨⟨9⟩, ⟨.fin 9.7, .fin 9.75, .fin 9.9⟩, .fin 9.6⟩

/-! ## Net position of the strategy's own orders -/

/-- The signed quantity of an order: a BUY counts up, a SELL counts down. -/
def Order.signedQuantity (o : Order) : Int :=
  match o.eOrderSide with
  | .Buy => (o.nOrderQuantity : Int)
  | .Sell => -(o.nOrderQuantity : Int)
  | .Unknown => 0

/-- The signed quantity an event fills: that of the pending order when the event is its
fill, nothing otherwise. -/
def filledBy (s : Strategy) : Event → Int
  | .fill _ =>
    match s.pending with
    | some o => o.signedQuantity
    | none => 0
  | _ => 0

/-- The signed sum of the quantities filled along a run. -/
def filledSum (ndebug : Bool) : Strategy → List Event → Int
  | _, [] => 0
  | s, e :: es =>
    match step ndebug s e with
    | .ok s' => filledBy s e + filledSum ndebug s' es
    | _ => 0

/-- An event other than `CloseAndDone` and other than a cancel delivered in
`ExitSubmitted`. -/
def Event.plain (s : Strategy) : Event → Bool
  | .CloseAndDone => false
  | .cancel => decide (s.m_stateTrade ≠ .ExitSubmitted)
  | _ => true

/-- A run made of ticks and of fill/cancel notifications of the pending order, without
`CloseAndDone` and without a cancel delivered in `ExitSubmitted`. -/
def plainRun (ndebug : Bool) : Strategy → List Event → Bool
  | _, [] => true
  | s, e :: es =>
    e.plain s &&
      match step ndebug s e with
      | .ok s' => plainRun ndebug s' es
      | _ => true

/-- The net-position invariant, state by state, for a strategy `s` whose fills so far sum
to `n`. The exit order out of `LongExit` is the SELL, out of `ShortExit` the BUY. -/
def NetInv (s : Strategy) (n : Int) : Prop :=
  match s.m_stateTrade with
  | .Init => s.m_pOrder = none ∧ n = 0
  | .Search => s.m_pOrder = none ∧ n = 0
  | .LongSubmitted => s.pending = some (Order.submitted .Buy) ∧ n = 0
  | .ShortSubmitted => s.pending = some (Order.submitted .Sell) ∧ n = 0
  | .LongExit => s.m_pOrder = none ∧ n = 100
  | .ShortExit => s.m_pOrder = none ∧ n = -100
  | .ExitSubmitted =>
    (s.pending = some (Order.submitted .Sell) ∧ n = 100) ∨
      (s.pending = some (Order.submitted .Buy) ∧ n = -100)
  | .Done => False

/-! ## The Alpaca provider (`lib/TFAlpaca/Provider.cpp`) -/

/-- A decoded asset record (`Asset::vMessage_t::value_type`), with the fields the
response handler names. -/
structure AssetMessage where
  id : String
  class_ : String
  exchange : String
  symbol : String
  tradable : Bool
  shortable : Bool
  marginable : Bool
  deriving DecidableEq

/-- The asset directory `m_mapAssetId`, from symbol to brokerage identifier, as the list
of its entries; `m_mapAssetId.find( symbol )` is `List.lookup symbol`. -/
abbrev mapAssetId_t := List (String × String)

/-- A request handed to a `one_shot` session: `get` or `post`, with its arguments. -/
structure OneShot where
  verb : String
  sHost : String
  sPort : String
  sAlpacaKeyId : String
  sAlpacaSecret : String
  sTarget : String
  sBody : String
  deriving DecidableEq

/-- The members of `alpaca::Provider` the request handlers read and write, with the lines
written to `std::cout` and the requests handed to `one_shot` sessions, oldest first. -/
structure Provider where
  m_sHost : String
  m_sPort : String
  m_sAlpacaKeyId : String
  m_sAlpacaSecret : String
  m_mapAssetId : mapAssetId_t
  cout : List String
  requests : List OneShot
  deriving DecidableEq

/-- The body of the loop over the decoded asset records in the response handler of
`Provider::Connect`: a symbol already in the directory is reported, a new one is
entered. -/
def Provider.addAsset (p : Provider) (vt : AssetMessage) : Provider :=
  match p.m_mapAssetId.lookup vt.symbol with
  | some id =>
    { p with cout := p.cout ++ ["asset: " ++ vt.symbol ++ " already exists with " ++ id] }
  | none => { p with m_mapAssetId := p.m_mapAssetId ++ [(vt.symbol, vt.id)] }

/-- The response handler that `Provider::Connect` passes to `one_shot::get` for
`/v2/assets`. `jecFailed message` is whether `json::parse( message, jec )` fails and
`Decode message` is the list `Asset::Decode` produces; both come from code that is not
part of these sources. -/
def Provider.OnAssets (jecFailed : String → Bool) (Decode : String → List AssetMessage)
    (p : Provider) (bStatus : Bool) (message : String) : Provider :=
  if bStatus then
    if jecFailed message then
      { p with cout := p.cout ++ ["failed to parse /v2/assets"] }
    else
      let vMessage := Decode message
      let p := vMessage.foldl Provider.addAsset p
      { p with cout := p.cout ++ ["found " ++ toString vMessage.length ++ " assets"] }
  else
    { p with cout := p.cout ++ ["one shot problems: " ++ message] }

/-- The number of entries of a directory under a symbol. -/
def entries (m : mapAssetId_t) (symbol : String) : Nat :=
  (m.filter (fun kv => kv.1 == symbol)).length

/-- An example provider with an empty directory. -/
def exampleProvider : Provider :=
  { m_sHost := "paper-api.alpaca.markets", m_sPort := "443", m_sAlpacaKeyId := "key-id",
    m_sAlpacaSecret := "secret", m_mapAssetId := [], cout := [], requests := [] }

/-- Two asset records with the same symbol and different identifiers. -/
def exampleAssets : List AssetMessage :=
  [⟨"675f7911", "us_equity", "ARCA", "GLD", true, true, true⟩,
   ⟨"0000aaaa", "us_equity", "ARCA", "GLD", true, true, true⟩]

/-- The columns of `ou::tf::Order::TableRowDef` that `Provider::PlaceOrder` reads. -/
structure TableRowDef where
  idInstrument : String
  nOrderQuantity : Nat
  eOrderSide : OrderSide
  eOrderType : OrderType
  dblPrice1 : Dbl
  dblPrice2 : Dbl
  deriving DecidableEq

/-- The `boost::json` values `Provider::PlaceOrder` stores: `nullptr`, a string, a
`double`. -/
inductive JValue where
  | null
  | string (s : String)
  | number (d : Dbl)
  deriving DecidableEq

/-- A `boost::json::object`, as the list of its members in insertion order. -/
abbrev JObject := List (String × JValue)

/-- The assignment `request[ key ] = v`: the member `key` gets the value `v`, and is
appended when the object has no such member. -/
def JObject.assign : JObject → String → JValue → JObject
  | [], key, v => [(key, v)]
  | (k, x) :: t, key, v => if k = key then (key, v) :: t else (k, x) :: JObject.assign t key v

/-- The value of the member `key`, when the object has one. -/
def JObject.find (o : JObject) (key : String) : Option JValue := List.lookup key o

/-- The JSON object `request` that `Provider::PlaceOrder` builds from the row of the
order, up to the point where it is serialized. -/
def Provider.request (ndebug : Bool) (trd : TableRowDef) : Outcome JObject :=
  let request : JObject := []
  let request := request.assign "symbol" (.string trd.idInstrument)
  let request := request.assign "qty" (.string (toString trd.nOrderQuantity))
  let request := request.assign "notional" .null
  let side : Outcome JObject :=
    match trd.eOrderSide with
    | .Buy => .ok (request.assign "side" (.string "buy"))
    | .Sell => .ok (request.assign "side" (.string "sell"))
    | _ =>
      -- assert( false )
      if ndebug then .ok request else .abort request
  match side with
  | .ok request =>
    let type : Outcome JObject :=
      match trd.eOrderType with
      | .Market => .ok (request.assign "type" (.string "market"))
      | .Limit =>
        let request := request.assign "type" (.string "limit")
        .ok (request.assign "limit_price" (.number trd.dblPrice1))
      | .Stop =>
        let request := request.assign "type" (.string "stop")
        .ok (request.assign "stop_price" (.number trd.dblPrice1))
      | .StopLimit =>
        let request := request.assign "type" (.string "stop_limit")
        let request := request.assign "limit_price" (.number trd.dblPrice1)
        .ok (request.assign "stop_price" (.number trd.dblPrice2))
      | _ =>
        -- assert( false )
        if ndebug then .ok request else .abort request
    match type with
    | .ok request =>
      let request := request.assign "time_in_force" (.string "day")
      .ok (request.assign "order_class" (.string "simple"))
    | r => r
  | r => r

/-- The member `Provider::PlaceOrder( pOrder )`: the request is built, written to the log
in serialized form, and posted to `/v2/orders` with the two credentials. `serialize` is
`boost::json::serialize`. -/
def Provider.PlaceOrder (ndebug : Bool) (serialize : JObject → String) (p : Provider)
    (trd : TableRowDef) : Outcome Provider :=
  match Provider.request ndebug trd with
  | .ok request =>
    let p := { p with cout := p.cout ++ ["order '" ++ serialize request ++ "'"] }
    .ok { p with
          requests := p.requests ++
            [{ verb := "POST", sHost := p.m_sHost, sPort := p.m_sPort,
               sAlpacaKeyId := p.m_sAlpacaKeyId, sAlpacaSecret := p.m_sAlpacaSecret,
               sTarget := "/v2/orders", sBody := serialize request }] }
  | .abort _ => .abort p
  | .undefined => .undefined

/-- The response handler that `Provider::PlaceOrder` passes to `one_shot::post`. -/
def Provider.OnPlaceOrder (p : Provider) (bResult : Bool) (s : String) : Provider :=
  if bResult then
    { p with cout := p.cout ++ ["place order result: " ++ s] }
  else
    { p with cout := p.cout ++ ["place order error: " ++ s] }

/-- The spec's example order: a limit BUY of 100 at 123.45 on the instrument
"ABCD-1234". -/
def exampleLimitBuy : TableRowDef :=
  { idInstrument := "ABCD-1234", nOrderQuantity := 100, eOrderSide := .Buy,
    eOrderType := .Limit, dblPrice1 := .fin 123.45, dblPrice2 := .fin 0 }

/-- What a handler that ends with `r` leaves of an observation `f` of its state. -/
def Outcome.map {α β : Type} (f : α → β) : Outcome α → Outcome β
  | .ok s => .ok (f s)
  | .abort s => .abort (f s)
  | .undefined => .undefined

/-- A stand-in for `boost::json::serialize` in examples: the member names, separated by
commas. -/
def exampleSerialize (o : JObject) : String := String.intercalate "," (o.map (fun kv => kv.1))

/-- An example provider whose directory resolves GLD. -/
def exampleProviderGLD : Provider :=
  { exampleProvider with m_mapAssetId := [("GLD", "675f7911-9aca-418a-acd5-07cfacb9d32b")] }

/-- A market BUY of 100 on the instrument named `sym`. -/
def exampleMarketBuy (sym : String) : TableRowDef :=
  { idInstrument := sym, nOrderQuantity := 100, eOrderSide := .Buy, eOrderType := .Market,
    dblPrice1 := .fin 0, dblPrice2 := .fin 0 }

/-- The member names `Provider::PlaceOrder` gives to a request. -/
def requestKeys : List String :=
  ["symbol", "qty", "notional", "side", "type", "limit_price", "stop_price", "time_in_force",
   "order_class"]

/-! ## Quotes (`Strategy::HandleQuote`, `Strategy::HandleBarQuotes01Sec`) -/

/-- IEEE `a <= b` on doubles: false when either operand is NaN. -/
def Dbl.le : Dbl → Dbl → Bool
  | .fin a, .fin b => decide (a ≤ b)
  | .negInf, .negInf => true
  | .negInf, .fin _ => true
  | .negInf, .posInf => true
  | .fin _, .posInf => true
  | .posInf, .posInf => true
  | _, _ => false

instance : LE Dbl := ⟨fun a b => Dbl.le a b = true⟩

instance (a b : Dbl) : Decidable (a ≤ b) := inferInstanceAs (Decidable (Dbl.le a b = true))

/-- The part of `ou::tf::Quote` the handler reads: time stamp, bid and ask. -/
structure Quote where
  DateTime : ptime
  Bid : Dbl
  Ask : Dbl
  deriving DecidableEq

/-- Modelled from the spec: `ou::tf::Quote::IsValid` (TFTimeSeries, absent from the
sources), "valid only if both sides are non-degenerate (bid>0, ask>0, ask≥bid)". -/
def Quote.IsValid (q : Quote) : Bool :=
  decide (q.Bid > .fin 0) && decide (q.Ask > .fin 0) && decide (q.Ask ≥ q.Bid)

/-- The collaborators of the quote handlers whose code is not part of these sources:
`Quote::Midpoint`, `Quote::Spread`, `MA::Update` on the three moving averages,
`BarFactory::Add` (which reports the bar it completes, if any), the total of
`Position::QueryStats`, and `DailyTradeTimeFrame::TimeTick`. -/
structure QuoteEnv (β : Type) where
  Midpoint : Quote → Dbl
  Spread : Quote → Dbl
  Update : ptime → MAPrices → MAPrices
  Add : β → ptime → Dbl → Nat → β × Option Bar
  QueryStats : Strategy → Dbl
  TimeTick : Bar → Strategy → Strategy

/-- The strategy with the members its quote handlers write: the bid/ask series, the
profit/loss series, the one-second bar factory `m_bfQuotes01Sec` (of state `β`), and the
bars passed to `TimeTick`, oldest first. -/
structure Feed (β : Type) where
  strategy : Strategy
  m_ceQuoteAsk : List (ptime × Dbl)
  m_ceQuoteBid : List (ptime × Dbl)
  m_ceProfitLoss : List (ptime × Dbl)
  m_bfQuotes01Sec : β
  ticks : List Bar

/-- The handler `Strategy::HandleBarQuotes01Sec( bar )`, called when the bar factory
completes a bar. -/
def HandleBarQuotes01Sec {β : Type} (env : QuoteEnv β) (bar : Bar) (f : Feed β) : Feed β :=
  let dblTotal := env.QueryStats f.strategy
  let f := { f with m_ceProfitLoss := f.m_ceProfitLoss ++ [(bar.DateTime, dblTotal)] }
  { f with strategy := env.TimeTick bar f.strategy, ticks := f.ticks ++ [bar] }

/-- The handler `Strategy::HandleQuote( quote )`. -/
def HandleQuote {β : Type} (env : QuoteEnv β) (quote : Quote) (f : Feed β) : Feed β :=
  if !quote.IsValid then f
  else
    let dt := quote.DateTime
    let f := { f with m_ceQuoteAsk := f.m_ceQuoteAsk ++ [(dt, quote.Ask)] }
    let f := { f with m_ceQuoteBid := f.m_ceQuoteBid ++ [(dt, quote.Bid)] }
    let f := { f with strategy := { f.strategy with m_dblMid := env.Midpoint quote } }
    let f := { f with strategy := { f.strategy with m_vMA := env.Update dt f.strategy.m_vMA } }
    match env.Add f.m_bfQuotes01Sec dt (env.Spread quote) 1 with
    | (bf, none) => { f with m_bfQuotes01Sec := bf }
    | (bf, some bar) => HandleBarQuotes01Sec env bar { f with m_bfQuotes01Sec := bf }

/-- An example environment: every quote completes a bar, and the tick handler runs on
it. -/
def exampleEnv : QuoteEnv Nat :=
  { Midpoint := fun q => q.Bid, Spread := fun _ => .fin 0, Update := fun _ m => m,
    Add := fun n dt _ _ => (n + 1, some ⟨dt⟩), QueryStats := fun _ => .fin 0,
    TimeTick := HandleRHTrading }

/-- An example feed around `exampleSearch`. -/
def exampleFeed : Feed Nat :=
  { strategy := exampleSearch, m_ceQuoteAsk := [], m_ceQuoteBid := [], m_ceProfitLoss := [],
    m_bfQuotes01Sec := 0, ticks := [] }

/-- A crossed quote: ask 10.2 below bid 10.3. -/
def exampleCrossedQuote : Quote := { DateTime := 5, Bid := .fin 10.3, Ask := .fin 10.2 }

/-! ## Construction (`Strategy::Strategy`) -/

/-- The members of `config::Options` the constructor reads (`Config.h` is not part of
these sources; the members are taken as signed integers). -/
structure Options where
  nPeriodWidth : Int
  nMA1Periods : Int
  nMA2Periods : Int
  nMA3Periods : Int
  deriving DecidableEq

/-- The members of `Strategy` the constructor sets from the options, with the trade
state; `m_nPeriodWidth` is `none` until it is assigned. -/
structure Constructed where
  m_stateTrade : ETradeState
  m_nPeriodWidth : Option Int
  m_vMAPeriods : List Int
  deriving DecidableEq

/-- The constructor `Strategy::Strategy( cdv, options )`, up to its last assertion; the
chart colours and names and the bar-completion hook it sets afterwards do not depend on
the options. Each `assert` aborts unless `ndebug`. -/
def Strategy.ctor (ndebug : Bool) (options : Options) : Outcome Constructed :=
  let s : Constructed := { m_stateTrade := .Init, m_nPeriodWidth := none, m_vMAPeriods := [] }
  -- assert( 0 < options.nPeriodWidth )
  if !ndebug && !decide (0 < options.nPeriodWidth) then .abort s
  else
    let s := { s with m_nPeriodWidth := some options.nPeriodWidth }
    let s := { s with m_vMAPeriods := s.m_vMAPeriods ++ [options.nMA1Periods] }
    let s := { s with m_vMAPeriods := s.m_vMAPeriods ++ [options.nMA2Periods] }
    let s := { s with m_vMAPeriods := s.m_vMAPeriods ++ [options.nMA3Periods] }
    -- assert( 3 == m_vMAPeriods.size() )
    if !ndebug && !decide (3 = s.m_vMAPeriods.length) then .abort s
    -- for each value: assert( 0 < value )
    else if !ndebug && s.m_vMAPeriods.any (fun value => !decide (0 < value)) then .abort s
    else .ok s

/-! ## A `PlaceOrder` that calls back before it returns -/

/-- The tick handler `Strategy::HandleRHTrading( bar )` with the body of
`Position::PlaceOrder` as a parameter: `place id s` is what the call
`m_pPosition->PlaceOrder( m_pOrder )` does when `m_pOrder` is the order `id` and the
strategy is `s`, notifications delivered before the call returns included. -/
def HandleRHTradingWith (place : Nat → Strategy → Outcome Strategy) (bar : Bar)
    (s : Strategy) : Outcome Strategy :=
  let ma1 := s.m_vMA.ma1
  let ma2 := s.m_vMA.ma2
  let ma3 := s.m_vMA.ma3
  match s.m_stateTrade with
  | .Search =>
    if ma1 > ma3 ∧ ma2 > ma3 ∧ s.m_dblMid > ma1 then
      -- enter long
      let id := s.orders.length
      let s := s.ConstructOrder .Market .Buy 100
      let s := s.Add id .OnOrderCancelled .HandleOrderCancelled
      let s := s.Add id .OnOrderFilled .HandleOrderFilled
      let s := { s with m_ceLongEntry := AddLabel s.m_ceLongEntry bar.DateTime s.m_dblMid "Long Submit" }
      let s := { s with m_stateTrade := .LongSubmitted }
      place id s
    else if ma1 < ma3 ∧ ma2 < ma3 ∧ s.m_dblMid < ma1 then
      -- enter short
      let id := s.orders.length
      let s := s.ConstructOrder .Market .Sell 100
      let s := s.Add id .OnOrderCancelled .HandleOrderCancelled
      let s := s.Add id .OnOrderFilled .HandleOrderFilled
      let s := { s with m_ceShortEntry := AddLabel s.m_ceShortEntry bar.DateTime s.m_dblMid "Short Submit" }
      let s := { s with m_stateTrade := .ShortSubmitted }
      place id s
    else .ok s
  | .LongSubmitted => .ok s
  | .LongExit =>
    if ma1 < ma3 then
      -- exit long
      let id := s.orders.length
      let s := s.ConstructOrder .Market .Sell 100
      let s := s.Add id .OnOrderCancelled .HandleOrderCancelled
      let s := s.Add id .OnOrderFilled .HandleOrderFilled
      let s := { s with m_ceLongExit := AddLabel s.m_ceLongExit bar.DateTime s.m_dblMid "Long Exit" }
      let s := { s with m_stateTrade := .ExitSubmitted }
      place id s
    else .ok s
  | .ShortSubmitted => .ok s
  | .ShortExit =>
    if ma1 > ma3 then
      -- exit short
      let id := s.orders.length
      let s := s.ConstructOrder .Market .Buy 100
      let s := s.Add id .OnOrderCancelled .HandleOrderCancelled
      let s := s.Add id .OnOrderFilled .HandleOrderFilled
      let s := { s with m_ceShortExit := AddLabel s.m_ceShortExit bar.DateTime s.m_dblMid "Short Exit" }
      let s := { s with m_stateTrade := .ExitSubmitted }
      place id s
    else .ok s
  | .ExitSubmitted => .ok s
  | .Done => .ok s
  | .Init => .ok { s with m_stateTrade := .Search }

/-- A `PlaceOrder` that returns without calling back: the call is recorded. -/
def placeLater (id : Nat) (s : Strategy) : Outcome Strategy := .ok (s.PlaceOrder id)

/-- A `PlaceOrder` that fills the order before it returns: the call is recorded, then the
fill is dispatched through the delegate list `OnOrderFilled` of the order, which reaches
`Strategy::HandleOrderFilled` when that handler is registered on it. -/
def placeAndFill (ndebug : Bool) (dt : ptime) (id : Nat) (s : Strategy) : Outcome Strategy :=
  let s := s.PlaceOrder id
  match s.orders[id]? with
  | none => .undefined
  | some o =>
    if Delegate.HandleOrderFilled ∈ o.OnOrderFilled then
      HandleOrderFilled ndebug { o with dtOrderFilled := dt } s
    else .ok s

/-- The trace a submitting branch of the tick handler has left for the order `id` when it
calls `PlaceOrder`. -/
def preTrace (id : Nat) (side : OrderSide) : List Effect :=
  [.ConstructOrder id .Market side 100,
   .Add id .OnOrderCancelled .HandleOrderCancelled,
   .Add id .OnOrderFilled .HandleOrderFilled]

/-! ## Theorems -/

@[simp] theorem Dbl.fin_lt_fin (a b : ℚ) : (Dbl.fin a < Dbl.fin b) ↔ a < b := by
  show Dbl.lt (Dbl.fin a) (Dbl.fin b) = true ↔ a < b
  simp [Dbl.lt]

theorem placed_append (t u : List Effect) : placed (t ++ u) = placed t ++ placed u := by
  induction t with
  | nil => rfl
  | cons e t ih => cases e <;> simp [placed, ih]

theorem HandleRHTrading_search_long (bar : Bar) (s : Strategy) (hs : s.m_stateTrade = .Search)
    (h : s.m_vMA.ma1 > s.m_vMA.ma3 ∧ s.m_vMA.ma2 > s.m_vMA.ma3 ∧ s.m_dblMid > s.m_vMA.ma1) :
    HandleRHTrading bar s =
      { s with m_stateTrade := .LongSubmitted,
               m_pOrder := some s.orders.length,
               m_ceLongEntry := AddLabel s.m_ceLongEntry bar.DateTime s.m_dblMid "Long Submit",
               orders := s.orders ++ [Order.submitted .Buy],
               trace := s.trace ++ submitTrace s.orders.length .Buy } := by
  simp [HandleRHTrading, hs, h, Strategy.ConstructOrder, Strategy.Add, Strategy.PlaceOrder, Strategy.updateOrder,
    Delegate.Add, Order.submitted, submitTrace]

theorem HandleRHTrading_search_short (bar : Bar) (s : Strategy) (hs : s.m_stateTrade = .Search)
    (hl : ¬ (s.m_vMA.ma1 > s.m_vMA.ma3 ∧ s.m_vMA.ma2 > s.m_vMA.ma3 ∧ s.m_dblMid > s.m_vMA.ma1))
    (h : s.m_vMA.ma1 < s.m_vMA.ma3 ∧ s.m_vMA.ma2 < s.m_vMA.ma3 ∧ s.m_dblMid < s.m_vMA.ma1) :
    HandleRHTrading bar s =
      { s with m_stateTrade := .ShortSubmitted,
               m_pOrder := some s.orders.length,
               m_ceShortEntry := AddLabel s.m_ceShortEntry bar.DateTime s.m_dblMid "Short Submit",
               orders := s.orders ++ [Order.submitted .Sell],
               trace := s.trace ++ submitTrace s.orders.length .Sell } := by
  simp only [HandleRHTrading, hs, if_neg hl, if_pos h]
  simp [Strategy.ConstructOrder, Strategy.Add, Strategy.PlaceOrder,
    Strategy.updateOrder, Delegate.Add, Order.submitted, submitTrace]

theorem HandleRHTrading_search_idle (bar : Bar) (s : Strategy) (hs : s.m_stateTrade = .Search)
    (hl : ¬ (s.m_vMA.ma1 > s.m_vMA.ma3 ∧ s.m_vMA.ma2 > s.m_vMA.ma3 ∧ s.m_dblMid > s.m_vMA.ma1))
    (h : ¬ (s.m_vMA.ma1 < s.m_vMA.ma3 ∧ s.m_vMA.ma2 < s.m_vMA.ma3 ∧ s.m_dblMid < s.m_vMA.ma1)) :
    HandleRHTrading bar s = s := by
  simp only [HandleRHTrading, hs, if_neg hl, if_neg h]

theorem HandleRHTrading_longExit (bar : Bar) (s : Strategy) (hs : s.m_stateTrade = .LongExit)
    (h : s.m_vMA.ma1 < s.m_vMA.ma3) :
    HandleRHTrading bar s =
      { s with m_stateTrade := .ExitSubmitted,
               m_pOrder := some s.orders.length,
               m_ceLongExit := AddLabel s.m_ceLongExit bar.DateTime s.m_dblMid "Long Exit",
               orders := s.orders ++ [Order.submitted .Sell],
               trace := s.trace ++ submitTrace s.orders.length .Sell } := by
  simp only [HandleRHTrading, hs, if_pos h]
  simp [Strategy.ConstructOrder, Strategy.Add, Strategy.PlaceOrder,
    Strategy.updateOrder, Delegate.Add, Order.submitted, submitTrace]

theorem HandleRHTrading_longExit_idle (bar : Bar) (s : Strategy)
    (hs : s.m_stateTrade = .LongExit) (h : ¬ s.m_vMA.ma1 < s.m_vMA.ma3) :
    HandleRHTrading bar s = s := by
  simp only [HandleRHTrading, hs, if_neg h]

theorem HandleRHTrading_shortExit (bar : Bar) (s : Strategy) (hs : s.m_stateTrade = .ShortExit)
    (h : s.m_vMA.ma1 > s.m_vMA.ma3) :
    HandleRHTrading bar s =
      { s with m_stateTrade := .ExitSubmitted,
               m_pOrder := some s.orders.length,
               m_ceShortExit := AddLabel s.m_ceShortExit bar.DateTime s.m_dblMid "Short Exit",
               orders := s.orders ++ [Order.submitted .Buy],
               trace := s.trace ++ submitTrace s.orders.length .Buy } := by
  simp only [HandleRHTrading, hs, if_pos h]
  simp [Strategy.ConstructOrder, Strategy.Add, Strategy.PlaceOrder,
    Strategy.updateOrder, Delegate.Add, Order.submitted, submitTrace]

theorem HandleRHTrading_shortExit_idle (bar : Bar) (s : Strategy)
    (hs : s.m_stateTrade = .ShortExit) (h : ¬ s.m_vMA.ma1 > s.m_vMA.ma3) :
    HandleRHTrading bar s = s := by
  simp only [HandleRHTrading, hs, if_neg h]

theorem placed_submitTrace (id : Nat) (side : OrderSide) :
    placed (submitTrace id side) = [Order.submitted side] := rfl

/-- C1. Search step of `Strategy::HandleRHTrading`: in `Search`, (i) when
`ma1 > ma3`, `ma2 > ma3` and `mid > ma1`, the tick hands exactly one order to the position,
a market BUY, and the state becomes `LongSubmitted`; (ii) otherwise, when `ma1 < ma3`,
`ma2 < ma3` and `mid < ma1`, it hands over exactly one order, a market SELL, and the state
becomes `ShortSubmitted`; (iii) otherwise the strategy is left as it was: no order, state
`Search`. -/
theorem C1_search_step (bar : Bar) (s : Strategy) (hs : s.m_stateTrade = .Search) :
    (s.m_vMA.ma1 > s.m_vMA.ma3 ∧ s.m_vMA.ma2 > s.m_vMA.ma3 ∧ s.m_dblMid > s.m_vMA.ma1 →
      (HandleRHTrading bar s).m_stateTrade = .LongSubmitted ∧
      ∃ o, placed (HandleRHTrading bar s).trace = placed s.trace ++ [o] ∧
        o.eOrderType = .Market ∧ o.eOrderSide = .Buy) ∧
    (¬ (s.m_vMA.ma1 > s.m_vMA.ma3 ∧ s.m_vMA.ma2 > s.m_vMA.ma3 ∧ s.m_dblMid > s.m_vMA.ma1) →
      s.m_vMA.ma1 < s.m_vMA.ma3 ∧ s.m_vMA.ma2 < s.m_vMA.ma3 ∧ s.m_dblMid < s.m_vMA.ma1 →
      (HandleRHTrading bar s).m_stateTrade = .ShortSubmitted ∧
      ∃ o, placed (HandleRHTrading bar s).trace = placed s.trace ++ [o] ∧
        o.eOrderType = .Market ∧ o.eOrderSide = .Sell) ∧
    (¬ (s.m_vMA.ma1 > s.m_vMA.ma3 ∧ s.m_vMA.ma2 > s.m_vMA.ma3 ∧ s.m_dblMid > s.m_vMA.ma1) →
      ¬ (s.m_vMA.ma1 < s.m_vMA.ma3 ∧ s.m_vMA.ma2 < s.m_vMA.ma3 ∧ s.m_dblMid < s.m_vMA.ma1) →
      placed (HandleRHTrading bar s).trace = placed s.trace ∧
      constructed (HandleRHTrading bar s).trace = constructed s.trace ∧
      (HandleRHTrading bar s).m_stateTrade = .Search) := by
  refine ⟨fun h => ?_, fun hl h => ?_, fun hl h => ?_⟩
  · rw [HandleRHTrading_search_long bar s hs h]
    exact ⟨rfl, Order.submitted .Buy, by simp [placed_append, placed_submitTrace], rfl, rfl⟩
  · rw [HandleRHTrading_search_short bar s hs hl h]
    exact ⟨rfl, Order.submitted .Sell, by simp [placed_append, placed_submitTrace], rfl, rfl⟩
  · rw [HandleRHTrading_search_idle bar s hs hl h]
    exact ⟨rfl, rfl, hs⟩

theorem exampleSearch_long :
    exampleSearch.m_vMA.ma1 > exampleSearch.m_vMA.ma3 ∧
      exampleSearch.m_vMA.ma2 > exampleSearch.m_vMA.ma3 ∧
      exampleSearch.m_dblMid > exampleSearch.m_vMA.ma1 := by
  simp only [exampleSearch, gt_iff_lt, Dbl.fin_lt_fin]
  norm_num

/-- Witness of C1 at the long-entry signal `ma1 = 10.2`, `ma2 = 10.1`, `ma3 = 9.8`,
`mid = 10.3`. -/
theorem C1_search_step_witness :
    exampleSearch.m_stateTrade = .Search ∧
      (HandleRHTrading ⟨7⟩ exampleSearch).m_stateTrade = .LongSubmitted :=
  ⟨rfl, ((C1_search_step ⟨7⟩ exampleSearch rfl).1 exampleSearch_long).1⟩

/-- In a state where the tick handler only waits, a tick changes the indicator values
and nothing else. -/
theorem tick_waiting (s : Strategy) (t : Tick)
    (h : s.m_stateTrade = .LongSubmitted ∨ s.m_stateTrade = .ShortSubmitted ∨
      s.m_stateTrade = .ExitSubmitted ∨ s.m_stateTrade = .Done) :
    s.tick t = { s with m_vMA := t.ma, m_dblMid := t.mid } := by
  rcases h with h | h | h | h <;> simp [Strategy.tick, HandleRHTrading, h]

theorem runTicks_waiting (ts : List Tick) (s : Strategy)
    (h : s.m_stateTrade = .LongSubmitted ∨ s.m_stateTrade = .ShortSubmitted ∨
      s.m_stateTrade = .ExitSubmitted ∨ s.m_stateTrade = .Done) :
    (runTicks s ts).m_stateTrade = s.m_stateTrade ∧ (runTicks s ts).trace = s.trace ∧
      (runTicks s ts).m_pOrder = s.m_pOrder ∧ (runTicks s ts).orders = s.orders ∧
      longSignalsInSearch s ts = 0 := by
  induction ts generalizing s with
  | nil => simp [runTicks, longSignalsInSearch]
  | cons t ts ih =>
    have hne : s.m_stateTrade ≠ .Search := by
      rcases h with h | h | h | h <;> simp [h]
    have ht := tick_waiting s t h
    have := ih (s.tick t) (by rw [ht]; exact h)
    simp only [runTicks, longSignalsInSearch, hne, false_and, if_false, zero_add]
    rw [ht] at this ⊢
    exact this

/-- C2. Over a sequence of session ticks that starts in `Search` and has no notification
in between, if the long-entry condition holds on exactly one of the ticks processed in
`Search`, then the sequence hands exactly one order to the position, a market BUY, and
ends in `LongSubmitted`. -/
theorem C2_single_long_entry (ts : List Tick) (s : Strategy) (hs : s.m_stateTrade = .Search)
    (h1 : longSignalsInSearch s ts = 1) :
    (runTicks s ts).m_stateTrade = .LongSubmitted ∧
      ∃ o, placed (runTicks s ts).trace = placed s.trace ++ [o] ∧
        o.eOrderType = .Market ∧ o.eOrderSide = .Buy ∧
        ((placed (runTicks s ts).trace).filter (fun p => p.eOrderSide == .Buy)).length =
          ((placed s.trace).filter (fun p => p.eOrderSide == .Buy)).length + 1 := by
  induction ts generalizing s with
  | nil => simp [longSignalsInSearch] at h1
  | cons t ts ih =>
    let s0 : Strategy := { s with m_vMA := t.ma, m_dblMid := t.mid }
    have hs0 : s0.m_stateTrade = .Search := hs
    by_cases hl : t.longSignal
    · have ht : s.tick t = _ := HandleRHTrading_search_long t.bar s0 hs0 hl
      have hw := runTicks_waiting ts (s.tick t) (by rw [ht]; exact Or.inl rfl)
      refine ⟨?_, Order.submitted .Buy, ?_, rfl, rfl, ?_⟩
      · simp only [runTicks]; rw [hw.1, ht]
      · simp only [runTicks]; rw [hw.2.1, ht]
        simp [placed_append, placed_submitTrace, s0]
      · simp only [runTicks]; rw [hw.2.1, ht]
        simp [placed_append, placed_submitTrace, s0, Order.submitted]
    · by_cases hsh : t.shortSignal
      · have ht : s.tick t = _ := HandleRHTrading_search_short t.bar s0 hs0 hl hsh
        have hw := runTicks_waiting ts (s.tick t) (by rw [ht]; exact Or.inr (Or.inl rfl))
        simp only [longSignalsInSearch, hl, and_false, if_false, zero_add] at h1
        rw [hw.2.2.2.2] at h1
        exact absurd h1 (by decide)
      · have ht : s.tick t = s0 := HandleRHTrading_search_idle t.bar s0 hs0 hl hsh
        simp only [longSignalsInSearch, hl, and_false, if_false, zero_add] at h1
        rw [ht] at h1
        have := ih s0 hs0 h1
        simp only [runTicks]
        rw [ht]
        exact this

/-- Witness of C2: an idle tick, then the long-entry signal, then the same signal again
while the order is in flight. -/
theorem C2_single_long_entry_witness :
    exampleSearch.m_stateTrade = .Search ∧
      (runTicks exampleSearch
        [⟨⟨1⟩, ⟨.fin 10, .fin 10, .fin 10⟩, .fin 10⟩,
         ⟨⟨2⟩, ⟨.fin 10.2, .fin 10.1, .fin 9.8⟩, .fin 10.3⟩,
         ⟨⟨3⟩, ⟨.fin 10.2, .fin 10.1, .fin 9.8⟩, .fin 10.3⟩]).m_stateTrade = .LongSubmitted :=
  ⟨rfl, (C2_single_long_entry _ exampleSearch rfl (by
    simp [longSignalsInSearch, Tick.longSignal, Strategy.tick, HandleRHTrading, exampleSearch,
      Strategy.ConstructOrder, Strategy.Add, Strategy.PlaceOrder, Strategy.updateOrder]
    norm_num
    decide)).1⟩

/-! ### The notification handlers -/

theorem updateOrder_of_some (s : Strategy) (id : Nat) (f : Order → Order) (o : Order)
    (ho : s.orders[id]? = some o) :
    s.updateOrder id f = { s with orders := s.orders.set id (f o) } := by
  simp [Strategy.updateOrder, ho]

theorem getElem?_set_of_some (l : List Order) (id : Nat) (o x : Order) (ho : l[id]? = some o) :
    (l.set id x)[id]? = some x := by
  have hlt : id < l.length := by
    by_contra hge
    rw [List.getElem?_eq_none (Nat.le_of_not_lt hge)] at ho
    cases ho
  simp [List.getElem?_set, hlt]

/-- The two `Remove` calls of a notification handler, on a pending order `id` of value
`o`. -/
theorem remove_both (s : Strategy) (id : Nat) (o : Order) (ho : s.orders[id]? = some o) :
    (s.Remove id .OnOrderCancelled .HandleOrderCancelled).Remove id .OnOrderFilled
        .HandleOrderFilled = s.deregistered id o := by
  have h1 : s.Remove id .OnOrderCancelled .HandleOrderCancelled =
      { s with orders := s.orders.set id
                 { o with OnOrderCancelled :=
                            Delegate.Remove o.OnOrderCancelled .HandleOrderCancelled }
               trace := s.trace ++ [.Remove id .OnOrderCancelled .HandleOrderCancelled] } := by
    simp [Strategy.Remove, updateOrder_of_some s id _ o ho]
  rw [h1]
  simp only [Strategy.Remove]
  rw [updateOrder_of_some _ id _ _ (getElem?_set_of_some s.orders id o _ ho)]
  simp [Strategy.deregistered, Order.deregistered, removeTrace]

/-- The fill handler on a strategy whose `m_pOrder` designates the order `id`. -/
theorem HandleOrderFilled_eq (ndebug : Bool) (order : Order) (s : Strategy) (id : Nat) (o : Order)
    (hp : s.m_pOrder = some id) (ho : s.orders[id]? = some o) :
    HandleOrderFilled ndebug order s =
      match s.m_stateTrade with
      | .LongSubmitted =>
        .ok ({ s.deregistered id o with
                m_ceLongFill := AddLabel s.m_ceLongFill order.dtOrderFilled s.m_dblMid "Long Fill"
                m_stateTrade := .LongExit }.reset id)
      | .ShortSubmitted =>
        .ok ({ s.deregistered id o with
                m_ceShortFill :=
                  AddLabel s.m_ceShortFill order.dtOrderFilled s.m_dblMid "Short Fill"
                m_stateTrade := .ShortExit }.reset id)
      | .ExitSubmitted => .ok ({ s.deregistered id o with m_stateTrade := .Search }.reset id)
      | _ => if ndebug then .ok ((s.deregistered id o).reset id) else .abort (s.deregistered id o) := by
  simp only [HandleOrderFilled, hp, ho, remove_both s id o ho]
  cases h : s.m_stateTrade <;> simp [Strategy.deregistered, h]

/-- The cancel handler on a strategy whose `m_pOrder` designates the order `id`. -/
theorem HandleOrderCancelled_eq (ndebug : Bool) (order : Order) (s : Strategy) (id : Nat)
    (o : Order) (hp : s.m_pOrder = some id) (ho : s.orders[id]? = some o) :
    HandleOrderCancelled ndebug order s =
      match s.m_stateTrade with
      | .ExitSubmitted =>
        if ndebug then .ok ((s.deregistered id o).reset id) else .abort (s.deregistered id o)
      | _ => .ok ({ s.deregistered id o with m_stateTrade := .Search }.reset id) := by
  simp only [HandleOrderCancelled, hp, ho, remove_both s id o ho]
  cases h : s.m_stateTrade <;> simp [Strategy.deregistered, h]

/-- C3. `Strategy::HandleOrderFilled`, for a fill of the pending order: `LongSubmitted`
goes to `LongExit`, `ShortSubmitted` to `ShortExit`, `ExitSubmitted` to `Search`; and in
`LongSubmitted` exactly one marker, with text "Long Fill" and the fill time of the order,
is appended to the long-fill series, every other marker series being left as it was. -/
theorem C3_fill_transitions (ndebug : Bool) (order : Order) (s : Strategy) (id : Nat) (o : Order)
    (hp : s.m_pOrder = some id) (ho : s.orders[id]? = some o) :
    (s.m_stateTrade = .LongSubmitted →
      ∃ s', HandleOrderFilled ndebug order s = .ok s' ∧ s'.m_stateTrade = .LongExit ∧
        s'.m_ceLongFill = s.m_ceLongFill ++ [⟨order.dtOrderFilled, s.m_dblMid, "Long Fill"⟩] ∧
        s'.m_ceShortFill = s.m_ceShortFill ∧
        s'.m_ceLongEntry = s.m_ceLongEntry ∧ s'.m_ceShortEntry = s.m_ceShortEntry ∧
        s'.m_ceLongExit = s.m_ceLongExit ∧ s'.m_ceShortExit = s.m_ceShortExit) ∧
    (s.m_stateTrade = .ShortSubmitted →
      ∃ s', HandleOrderFilled ndebug order s = .ok s' ∧ s'.m_stateTrade = .ShortExit) ∧
    (s.m_stateTrade = .ExitSubmitted →
      ∃ s', HandleOrderFilled ndebug order s = .ok s' ∧ s'.m_stateTrade = .Search) := by
  rw [HandleOrderFilled_eq ndebug order s id o hp ho]
  refine ⟨fun h => ?_, fun h => ?_, fun h => ?_⟩ <;> rw [h]
  · exact ⟨_, rfl, rfl, rfl, rfl, rfl, rfl, rfl, rfl⟩
  · exact ⟨_, rfl, rfl⟩
  · exact ⟨_, rfl, rfl⟩

theorem exampleSearch_tick :
    HandleRHTrading ⟨7⟩ exampleSearch =
      { exampleSearch with
        m_stateTrade := .LongSubmitted, m_pOrder := some 0,
        m_ceLongEntry := [⟨7, .fin 10.3, "Long Submit"⟩],
        orders := [Order.submitted .Buy], trace := submitTrace 0 .Buy } :=
  HandleRHTrading_search_long ⟨7⟩ exampleSearch rfl exampleSearch_long

/-- Witness of C3: the fill of the BUY that `exampleSearch` submits on its tick. -/
theorem C3_fill_transitions_witness :
    (HandleRHTrading ⟨7⟩ exampleSearch).m_pOrder = some 0 ∧
      (HandleRHTrading ⟨7⟩ exampleSearch).orders[0]? = some (Order.submitted .Buy) ∧
      ∃ s', HandleOrderFilled false { Order.submitted .Buy with dtOrderFilled := 8 }
          (HandleRHTrading ⟨7⟩ exampleSearch) = .ok s' ∧ s'.m_stateTrade = .LongExit :=
  have hp : (HandleRHTrading ⟨7⟩ exampleSearch).m_pOrder = some 0 := by
    rw [exampleSearch_tick]
  have ho : (HandleRHTrading ⟨7⟩ exampleSearch).orders[0]? = some (Order.submitted .Buy) := by
    rw [exampleSearch_tick]; rfl
  have hst : (HandleRHTrading ⟨7⟩ exampleSearch).m_stateTrade = .LongSubmitted := by
    rw [exampleSearch_tick]
  ⟨hp, ho,
    let ⟨s', h, h', _⟩ := (C3_fill_transitions false { Order.submitted .Buy with dtOrderFilled := 8 }
      (HandleRHTrading ⟨7⟩ exampleSearch) 0 (Order.submitted .Buy) hp ho).1 hst
    ⟨s', h, h'⟩⟩

theorem exampleDonePending_eq :
    exampleDonePending =
      { exampleSearch with
        m_stateTrade := .Done, m_pOrder := some 0,
        m_ceLongEntry := [⟨7, .fin 10.3, "Long Submit"⟩],
        orders := [Order.submitted .Buy], trace := submitTrace 0 .Buy ++ [.ClosePosition] } := by
  rw [exampleDonePending, exampleSearch_tick]
  rfl

/-- Counterexample to C4 as stated: in a build with `NDEBUG`, the fill of the pending
order delivered in `Done` (an order was in flight when `CloseAndDone` was called), and the
cancel of the pending exit order delivered in `ExitSubmitted`, both return normally. -/
theorem C4_counterexample :
    (exampleDonePending.m_stateTrade = .Done ∧ exampleDonePending.m_pOrder = some 0 ∧
      ∃ s', HandleOrderFilled true (Order.submitted .Buy) exampleDonePending = .ok s' ∧
        s'.m_stateTrade = .Done ∧ s'.m_pOrder = none) ∧
    (exampleExitSubmitted.m_stateTrade = .ExitSubmitted ∧ exampleExitSubmitted.m_pOrder = some 1 ∧
      ∃ s', HandleOrderCancelled true (Order.submitted .Sell) exampleExitSubmitted = .ok s' ∧
        s'.m_stateTrade = .ExitSubmitted ∧ s'.m_pOrder = none) := by
  refine ⟨⟨?_, ?_, ?_⟩, rfl, rfl, ?_⟩
  · rw [exampleDonePending_eq]
  · rw [exampleDonePending_eq]
  · rw [HandleOrderFilled_eq true _ exampleDonePending 0 (Order.submitted .Buy)
      (by rw [exampleDonePending_eq]) (by rw [exampleDonePending_eq]; rfl)]
    rw [exampleDonePending_eq]
    exact ⟨_, rfl, rfl, rfl⟩
  · rw [HandleOrderCancelled_eq true _ exampleExitSubmitted 1 (Order.submitted .Sell) rfl rfl]
    exact ⟨_, rfl, rfl, rfl⟩

/-- C4, amended. A fill of the pending order delivered in a state other than
`LongSubmitted`, `ShortSubmitted`, `ExitSubmitted`, and a cancel of the pending order
delivered in `ExitSubmitted`, reach `assert( false )`: when assertions are compiled in the
process aborts there, both callbacks deregistered and the order not yet released, and the
handler does not return; when `NDEBUG` is defined the handler returns normally with the
trade state unchanged and the pending order released. -/
theorem C4_invariant_violation (order : Order) (s : Strategy) (id : Nat) (o : Order)
    (hp : s.m_pOrder = some id) (ho : s.orders[id]? = some o) :
    (s.m_stateTrade ≠ .LongSubmitted → s.m_stateTrade ≠ .ShortSubmitted →
      s.m_stateTrade ≠ .ExitSubmitted →
      (∃ s', HandleOrderFilled false order s = .abort s' ∧ s'.m_stateTrade = s.m_stateTrade ∧
        s'.m_pOrder = some id ∧ s'.trace = s.trace ++ removeTrace id) ∧
      (∃ s', HandleOrderFilled true order s = .ok s' ∧ s'.m_stateTrade = s.m_stateTrade ∧
        s'.m_pOrder = none)) ∧
    (s.m_stateTrade = .ExitSubmitted →
      (∃ s', HandleOrderCancelled false order s = .abort s' ∧
        s'.m_stateTrade = .ExitSubmitted ∧ s'.m_pOrder = some id ∧
        s'.trace = s.trace ++ removeTrace id) ∧
      (∃ s', HandleOrderCancelled true order s = .ok s' ∧ s'.m_stateTrade = .ExitSubmitted ∧
        s'.m_pOrder = none)) := by
  refine ⟨fun h1 h2 h3 => ?_, fun h => ?_⟩
  · rw [HandleOrderFilled_eq false order s id o hp ho, HandleOrderFilled_eq true order s id o hp ho]
    cases h : s.m_stateTrade <;> simp [h] at h1 h2 h3 ⊢ <;>
      exact ⟨⟨h, hp, rfl⟩, h, rfl⟩
  · rw [HandleOrderCancelled_eq false order s id o hp ho,
      HandleOrderCancelled_eq true order s id o hp ho, h]
    exact ⟨⟨_, rfl, h, hp, rfl⟩, ⟨_, rfl, h, rfl⟩⟩

/-- Witness of C4 (amended): the fill that arrives in `Done` for the order that was in
flight when `CloseAndDone` was called aborts a build with assertions. -/
theorem C4_invariant_violation_witness :
    exampleDonePending.m_pOrder = some 0 ∧
      exampleDonePending.orders[0]? = some (Order.submitted .Buy) ∧
      ∃ s', HandleOrderFilled false (Order.submitted .Buy) exampleDonePending = .abort s' :=
  have hp : exampleDonePending.m_pOrder = some 0 := by rw [exampleDonePending_eq]
  have ho : exampleDonePending.orders[0]? = some (Order.submitted .Buy) := by
    rw [exampleDonePending_eq]; rfl
  ⟨hp, ho,
    let ⟨s', h, _⟩ := ((C4_invariant_violation (Order.submitted .Buy) exampleDonePending 0
      (Order.submitted .Buy) hp ho).1 (by rw [exampleDonePending_eq]; decide)
      (by rw [exampleDonePending_eq]; decide) (by rw [exampleDonePending_eq]; decide)).1
    ⟨s', h⟩⟩

/-- C5. `Strategy::HandleOrderCancelled`, for a cancel of the pending order delivered in
any state other than `ExitSubmitted`: the handler returns, the state is `Search`, the
pending order has been released exactly once (one `reset`, after the two `Remove`
calls), and the strategy holds no pending order. -/
theorem C5_cancel_reverts (ndebug : Bool) (order : Order) (s : Strategy) (id : Nat) (o : Order)
    (hp : s.m_pOrder = some id) (ho : s.orders[id]? = some o)
    (hs : s.m_stateTrade ≠ .ExitSubmitted) :
    ∃ s', HandleOrderCancelled ndebug order s = .ok s' ∧ s'.m_stateTrade = .Search ∧
      s'.m_pOrder = none ∧
      s'.trace = s.trace ++ [.Remove id .OnOrderCancelled .HandleOrderCancelled,
        .Remove id .OnOrderFilled .HandleOrderFilled, .reset id] := by
  rw [HandleOrderCancelled_eq ndebug order s id o hp ho]
  cases h : s.m_stateTrade <;> simp [h] at hs ⊢ <;>
    simp [Strategy.reset, Strategy.deregistered, removeTrace]

/-- Witness of C5: the cancel that arrives in `Done` for the order that was in flight when
`CloseAndDone` was called. -/
theorem C5_cancel_reverts_witness :
    exampleDonePending.m_pOrder = some 0 ∧
      exampleDonePending.orders[0]? = some (Order.submitted .Buy) ∧
      exampleDonePending.m_stateTrade ≠ .ExitSubmitted ∧
      ∃ s', HandleOrderCancelled false (Order.submitted .Buy) exampleDonePending = .ok s' ∧
        s'.m_stateTrade = .Search :=
  have hp : exampleDonePending.m_pOrder = some 0 := by rw [exampleDonePending_eq]
  have ho : exampleDonePending.orders[0]? = some (Order.submitted .Buy) := by
    rw [exampleDonePending_eq]; rfl
  have hs : exampleDonePending.m_stateTrade ≠ .ExitSubmitted := by
    rw [exampleDonePending_eq]; decide
  ⟨hp, ho, hs,
    let ⟨s', h, h', _⟩ := C5_cancel_reverts false (Order.submitted .Buy) exampleDonePending 0
      (Order.submitted .Buy) hp ho hs
    ⟨s', h, h'⟩⟩

theorem registrations_deregistered (o : Order)
    (hc : o.OnOrderCancelled.count .HandleOrderCancelled ≤ 1)
    (hf : o.OnOrderFilled.count .HandleOrderFilled ≤ 1) :
    o.deregistered.registrations = 0 := by
  simp only [Order.registrations, Order.deregistered, Delegate.Remove, List.count_erase_self]
  omega

theorem deregistered_getElem? (s : Strategy) (id : Nat) (o : Order)
    (ho : s.orders[id]? = some o) :
    (s.deregistered id o).orders[id]? = some o.deregistered :=
  getElem?_set_of_some s.orders id o _ ho

/-- Every way a tick can end: nothing changes, or `Init` becomes `Search`, or one of the
four submitting branches runs. -/
theorem HandleRHTrading_cases (bar : Bar) (s : Strategy) :
    HandleRHTrading bar s = s ∨
    (s.m_stateTrade = .Init ∧ HandleRHTrading bar s = { s with m_stateTrade := .Search }) ∨
    ∃ side, (s.m_stateTrade = .Search ∨ s.m_stateTrade = .LongExit ∨
        s.m_stateTrade = .ShortExit) ∧
      ((HandleRHTrading bar s).m_stateTrade = .LongSubmitted ∨
        (HandleRHTrading bar s).m_stateTrade = .ShortSubmitted ∨
        (HandleRHTrading bar s).m_stateTrade = .ExitSubmitted) ∧
      (HandleRHTrading bar s).m_pOrder = some s.orders.length ∧
      (HandleRHTrading bar s).orders = s.orders ++ [Order.submitted side] ∧
      (HandleRHTrading bar s).trace = s.trace ++ submitTrace s.orders.length side := by
  cases hs : s.m_stateTrade
  case Init => exact Or.inr (Or.inl ⟨rfl, by simp [HandleRHTrading, hs]⟩)
  case LongSubmitted => exact Or.inl (by simp [HandleRHTrading, hs])
  case ShortSubmitted => exact Or.inl (by simp [HandleRHTrading, hs])
  case ExitSubmitted => exact Or.inl (by simp [HandleRHTrading, hs])
  case Done => exact Or.inl (by simp [HandleRHTrading, hs])
  case Search =>
    by_cases hl : s.m_vMA.ma1 > s.m_vMA.ma3 ∧ s.m_vMA.ma2 > s.m_vMA.ma3 ∧ s.m_dblMid > s.m_vMA.ma1
    · refine Or.inr (Or.inr ⟨.Buy, Or.inl rfl, ?_⟩)
      rw [HandleRHTrading_search_long bar s hs hl]
      exact ⟨Or.inl rfl, rfl, rfl, rfl⟩
    · by_cases hsh : s.m_vMA.ma1 < s.m_vMA.ma3 ∧ s.m_vMA.ma2 < s.m_vMA.ma3 ∧
          s.m_dblMid < s.m_vMA.ma1
      · refine Or.inr (Or.inr ⟨.Sell, Or.inl rfl, ?_⟩)
        rw [HandleRHTrading_search_short bar s hs hl hsh]
        exact ⟨Or.inr (Or.inl rfl), rfl, rfl, rfl⟩
      · exact Or.inl (HandleRHTrading_search_idle bar s hs hl hsh)
  case LongExit =>
    by_cases h : s.m_vMA.ma1 < s.m_vMA.ma3
    · refine Or.inr (Or.inr ⟨.Sell, Or.inr (Or.inl rfl), ?_⟩)
      rw [HandleRHTrading_longExit bar s hs h]
      exact ⟨Or.inr (Or.inr rfl), rfl, rfl, rfl⟩
    · exact Or.inl (HandleRHTrading_longExit_idle bar s hs h)
  case ShortExit =>
    by_cases h : s.m_vMA.ma1 > s.m_vMA.ma3
    · refine Or.inr (Or.inr ⟨.Buy, Or.inr (Or.inr rfl), ?_⟩)
      rw [HandleRHTrading_shortExit bar s hs h]
      exact ⟨Or.inr (Or.inr rfl), rfl, rfl, rfl⟩
    · exact Or.inl (HandleRHTrading_shortExit_idle bar s hs h)

/-- C6. Callback deregistration on a terminal notification. (a) A tick that hands an
order to the position leaves `m_pOrder` on that order with exactly one cancel handler
and one fill handler of the strategy registered. (b) On such a pending order both
`HandleOrderFilled` and `HandleOrderCancelled` call `Remove` for the cancel handler and
`Remove` for the fill handler exactly once each, before the single `reset` that releases
the order when the handler returns, and the order is left with zero registrations of the
strategy. -/
theorem C6_deregistration :
    (∀ (bar : Bar) (s0 : Strategy), placed (HandleRHTrading bar s0).trace ≠ placed s0.trace →
      ∃ id o, (HandleRHTrading bar s0).m_pOrder = some id ∧
        (HandleRHTrading bar s0).orders[id]? = some o ∧
        placed (HandleRHTrading bar s0).trace = placed s0.trace ++ [o] ∧
        o.OnOrderCancelled.count .HandleOrderCancelled = 1 ∧
        o.OnOrderFilled.count .HandleOrderFilled = 1) ∧
    (∀ (ndebug : Bool) (order : Order) (s : Strategy) (id : Nat) (o : Order),
      s.m_pOrder = some id → s.orders[id]? = some o →
      o.OnOrderCancelled.count .HandleOrderCancelled = 1 →
      o.OnOrderFilled.count .HandleOrderFilled = 1 →
      ∀ r, r = HandleOrderFilled ndebug order s ∨ r = HandleOrderCancelled ndebug order s →
        ∃ s' o', s'.orders[id]? = some o' ∧ o'.registrations = 0 ∧
          ((r = .ok s' ∧ s'.m_pOrder = none ∧
              s'.trace = s.trace ++ [.Remove id .OnOrderCancelled .HandleOrderCancelled,
                .Remove id .OnOrderFilled .HandleOrderFilled, .reset id]) ∨
            (r = .abort s' ∧
              s'.trace = s.trace ++ [.Remove id .OnOrderCancelled .HandleOrderCancelled,
                .Remove id .OnOrderFilled .HandleOrderFilled]))) := by
  constructor
  · intro bar s0 hne
    rcases HandleRHTrading_cases bar s0 with h | ⟨_, h⟩ | ⟨side, _, _, hp, ho, ht⟩
    · rw [h] at hne; exact absurd rfl hne
    · rw [h] at hne; exact absurd rfl hne
    · refine ⟨s0.orders.length, Order.submitted side, hp, ?_, ?_, rfl, rfl⟩
      · rw [ho]; simp
      · rw [ht, placed_append, placed_submitTrace]
  · intro ndebug order s id o hp ho hc hf r hr
    have hreg := registrations_deregistered o (le_of_eq hc) (le_of_eq hf)
    have hget := deregistered_getElem? s id o ho
    rcases hr with hr | hr
    · rw [HandleOrderFilled_eq ndebug order s id o hp ho] at hr
      cases ndebug <;> cases hst : s.m_stateTrade <;> simp only [hst] at hr <;> subst hr
      all_goals first
        | refine ⟨_, _, ?_, hreg, Or.inl ⟨rfl, rfl, ?_⟩⟩
          · exact hget
          · simp [Strategy.reset, Strategy.deregistered, removeTrace]
        | refine ⟨_, _, ?_, hreg, Or.inr ⟨rfl, ?_⟩⟩
          · exact hget
          · simp [Strategy.deregistered, removeTrace]
    · rw [HandleOrderCancelled_eq ndebug order s id o hp ho] at hr
      cases ndebug <;> cases hst : s.m_stateTrade <;> simp only [hst] at hr <;> subst hr
      all_goals first
        | refine ⟨_, _, ?_, hreg, Or.inl ⟨rfl, rfl, ?_⟩⟩
          · exact hget
          · simp [Strategy.reset, Strategy.deregistered, removeTrace]
        | refine ⟨_, _, ?_, hreg, Or.inr ⟨rfl, ?_⟩⟩
          · exact hget
          · simp [Strategy.deregistered, removeTrace]

/-- Witness of C6: the BUY that `exampleSearch` submits on its tick, then filled. -/
theorem C6_deregistration_witness :
    ∃ s' o', s'.orders[0]? = some o' ∧ o'.registrations = 0 ∧
      HandleOrderFilled false (Order.submitted .Buy) (HandleRHTrading ⟨7⟩ exampleSearch) = .ok s' ∧
      s'.m_pOrder = none := by
  have hp : (HandleRHTrading ⟨7⟩ exampleSearch).m_pOrder = some 0 := by
    rw [exampleSearch_tick]
  have ho : (HandleRHTrading ⟨7⟩ exampleSearch).orders[0]? = some (Order.submitted .Buy) := by
    rw [exampleSearch_tick]; rfl
  obtain ⟨s', o', h1, h2, h3⟩ := C6_deregistration.2 false (Order.submitted .Buy)
    (HandleRHTrading ⟨7⟩ exampleSearch) 0 (Order.submitted .Buy) hp ho rfl rfl _ (Or.inl rfl)
  rcases h3 with ⟨h3, h4, _⟩ | ⟨h3, _⟩
  · exact ⟨s', o', h1, h2, h3, h4⟩
  · rw [HandleOrderFilled_eq false _ _ 0 (Order.submitted .Buy) hp ho, exampleSearch_tick] at h3
    cases h3

/-! ### Reachable states -/

theorem pending_eq (s : Strategy) (id : Nat) (hp : s.m_pOrder = some id) :
    s.pending = s.orders[id]? := by
  simp [Strategy.pending, hp]

/-- What a notification handler that returns has done to the order handle. -/
theorem handler_ok_shape (ndebug : Bool) (order : Order) (s s' : Strategy) (id : Nat)
    (o : Order) (hp : s.m_pOrder = some id) (ho : s.orders[id]? = some o)
    (h : HandleOrderFilled ndebug order s = .ok s' ∨ HandleOrderCancelled ndebug order s = .ok s') :
    s'.m_pOrder = none ∧ s'.orders = s.orders.set id o.deregistered ∧
      s'.trace = s.trace ++ removeTrace id ++ [.reset id] := by
  rcases h with h | h
  · rw [HandleOrderFilled_eq ndebug order s id o hp ho] at h
    cases ndebug <;> cases hst : s.m_stateTrade <;> simp only [hst] at h <;>
      first
        | (injection h with h; subst h; exact ⟨rfl, rfl, rfl⟩)
        | cases h
  · rw [HandleOrderCancelled_eq ndebug order s id o hp ho] at h
    cases ndebug <;> cases hst : s.m_stateTrade <;> simp only [hst] at h <;>
      first
        | (injection h with h; subst h; exact ⟨rfl, rfl, rfl⟩)
        | cases h

theorem inv_of_released (s s' : Strategy) (id : Nat) (o : Order) (hinv : Inv s)
    (hp : s.m_pOrder = some id) (ho : s.orders[id]? = some o)
    (h1 : s'.m_pOrder = none) (h2 : s'.orders = s.orders.set id o.deregistered) : Inv s' := by
  obtain ⟨o1, ho1, hc, hf⟩ := hinv.pending id hp
  rw [ho] at ho1
  cases ho1
  refine ⟨fun _ => h1, fun i hi => ?_, fun i x hx _ => ?_⟩
  · rw [h1] at hi; cases hi
  · rw [h2] at hx
    by_cases hi : i = id
    · subst hi
      rw [getElem?_set_of_some s.orders i o _ ho] at hx
      cases hx
      exact registrations_deregistered o (le_of_eq hc) (le_of_eq hf)
    · rw [List.getElem?_set_ne (Ne.symm hi)] at hx
      exact hinv.others i x hx (by rw [hp]; intro h; exact hi (Option.some.inj h).symm)

theorem inv_tick (s : Strategy) (t : Tick) (hinv : Inv s) : Inv (s.tick t) := by
  let s0 : Strategy := { s with m_vMA := t.ma, m_dblMid := t.mid }
  have hinv0 : Inv s0 := ⟨hinv.idle, hinv.pending, hinv.others⟩
  show Inv (HandleRHTrading t.bar s0)
  rcases HandleRHTrading_cases t.bar s0 with h | ⟨hs, h⟩ | ⟨side, hs, hs', hp, ho, _⟩
  · rw [h]; exact hinv0
  · rw [h]
    exact ⟨fun _ => hinv0.idle (Or.inl hs), hinv0.pending, hinv0.others⟩
  · have hnone : s0.m_pOrder = none := hinv0.idle (Or.inr hs)
    refine ⟨fun h => ?_, fun id hid => ?_, fun i x hx hi => ?_⟩
    · rcases hs' with e | e | e <;> rw [e] at h <;> simp at h
    · rw [hp] at hid
      cases hid
      exact ⟨Order.submitted side, by rw [ho]; simp, rfl, rfl⟩
    · rw [ho] at hx
      have hne : i ≠ s0.orders.length := fun h => hi (by rw [hp, h])
      rcases Nat.lt_or_gt_of_ne hne with hlt | hgt
      · rw [List.getElem?_append_left hlt] at hx
        exact hinv0.others i x hx (by rw [hnone]; simp)
      · have hlen : (s0.orders ++ [Order.submitted side]).length ≤ i := by
          rw [List.length_append, List.length_singleton]; omega
        rw [List.getElem?_eq_none hlen] at hx
        cases hx

theorem inv_CloseAndDone (s : Strategy) (hinv : Inv s) : Inv (CloseAndDone s) :=
  ⟨fun h => (by rcases h with h | h | h | h <;> cases h), hinv.pending, hinv.others⟩

theorem inv_step (ndebug : Bool) (s s' : Strategy) (e : Event) (hinv : Inv s)
    (h : step ndebug s e = .ok s') : Inv s' := by
  cases e with
  | tick t =>
    injection h with h
    subst h
    exact inv_tick s t hinv
  | CloseAndDone =>
    injection h with h
    subst h
    exact inv_CloseAndDone s hinv
  | fill dt =>
    cases hp : s.m_pOrder with
    | none => simp [step, Strategy.pending, hp] at h
    | some id =>
      obtain ⟨o, ho, _⟩ := hinv.pending id hp
      simp only [step, pending_eq s id hp, ho] at h
      obtain ⟨h1, h2, _⟩ := handler_ok_shape ndebug _ s s' id o hp ho (Or.inl h)
      exact inv_of_released s s' id o hinv hp ho h1 h2
  | cancel =>
    cases hp : s.m_pOrder with
    | none => simp [step, Strategy.pending, hp] at h
    | some id =>
      obtain ⟨o, ho, _⟩ := hinv.pending id hp
      simp only [step, pending_eq s id hp, ho] at h
      obtain ⟨h1, h2, _⟩ := handler_ok_shape ndebug _ s s' id o hp ho (Or.inr h)
      exact inv_of_released s s' id o hinv hp ho h1 h2

theorem inv_run (ndebug : Bool) (evs : List Event) (s s' : Strategy) (hinv : Inv s)
    (h : run ndebug s evs = .ok s') : Inv s' := by
  induction evs generalizing s with
  | nil =>
    injection h with h
    subst h
    exact hinv
  | cons e es ih =>
    simp only [run] at h
    cases hst : step ndebug s e with
    | ok s1 =>
      rw [hst] at h
      exact ih s1 (inv_step ndebug s s1 e hinv hst) h
    | abort s1 => rw [hst] at h; cases h
    | undefined => rw [hst] at h; cases h

theorem inv_initial (s : Strategy) (h : s.IsInitial) : Inv s := by
  obtain ⟨_, hp, hreg⟩ := h
  refine ⟨fun _ => hp, fun id hid => ?_, fun i o ho _ => ?_⟩
  · rw [hp] at hid; cases hid
  · exact hreg o (List.getElem?_mem ho)

/-- C7. At most one pending order. In every state reached from the constructed strategy
by session ticks, `CloseAndDone` calls and fill/cancel notifications of the pending order,
a tick that constructs an order finds `m_pOrder` null and every order of the position
without a registration of the strategy; and a tick never replaces a non-null
`m_pOrder`. -/
theorem C7_at_most_one_pending (ndebug : Bool) (s0 : Strategy) (h0 : s0.IsInitial)
    (evs : List Event) (s : Strategy) (hrun : run ndebug s0 evs = .ok s) (t : Tick) :
    (constructed (s.tick t).trace ≠ constructed s.trace →
      s.m_pOrder = none ∧ ∀ o ∈ s.orders, o.registrations = 0) ∧
    (∀ id, s.m_pOrder = some id →
      (s.tick t).m_pOrder = some id ∧ constructed (s.tick t).trace = constructed s.trace) := by
  have hinv : Inv s := inv_run ndebug evs s0 s (inv_initial s0 h0) hrun
  let s1 : Strategy := { s with m_vMA := t.ma, m_dblMid := t.mid }
  have hcases := HandleRHTrading_cases t.bar s1
  have htick : s.tick t = HandleRHTrading t.bar s1 := rfl
  rw [htick]
  rcases hcases with h | ⟨_, h⟩ | ⟨side, hs, _, _, _, _⟩
  · rw [h]
    exact ⟨fun hne => absurd rfl hne, fun id hid => ⟨hid, rfl⟩⟩
  · rw [h]
    exact ⟨fun hne => absurd rfl hne, fun id hid => ⟨hid, rfl⟩⟩
  · have hnone : s.m_pOrder = none := hinv.idle (Or.inr hs)
    refine ⟨fun _ => ⟨hnone, fun o ho => ?_⟩, fun id hid => ?_⟩
    · obtain ⟨i, hi⟩ := List.mem_iff_getElem?.1 ho
      exact hinv.others i o hi (by rw [hnone]; simp)
    · rw [hnone] at hid; cases hid

theorem exampleInit_tick : run false exampleInit [.tick exampleTick] = .ok exampleSearch := by
  simp [run, step, Strategy.tick, HandleRHTrading, exampleInit, exampleTick, exampleSearch]

theorem exampleSearch_constructs :
    constructed (exampleSearch.tick exampleTick).trace ≠ constructed exampleSearch.trace := by
  have h : exampleSearch.tick exampleTick = HandleRHTrading ⟨7⟩ exampleSearch := rfl
  rw [h, exampleSearch_tick]
  decide

/-- Witness of C7: the constructed strategy, one tick later (`Search`), at the tick that
enters long. -/
theorem C7_at_most_one_pending_witness :
    exampleInit.IsInitial ∧ run false exampleInit [.tick exampleTick] = .ok exampleSearch ∧
      exampleSearch.m_pOrder = none :=
  have h0 : exampleInit.IsInitial := ⟨rfl, rfl, fun _ h => absurd h (List.not_mem_nil _)⟩
  ⟨h0, exampleInit_tick,
    ((C7_at_most_one_pending false exampleInit h0 [.tick exampleTick] exampleSearch
      exampleInit_tick exampleTick).1 exampleSearch_constructs).1⟩

/-! ### `CloseAndDone` -/

theorem exampleTick_long : exampleTick.longSignal := by
  simp only [Tick.longSignal, exampleTick, gt_iff_lt, Dbl.fin_lt_fin]
  norm_num

/-- C8, evaluated on the code. `CloseAndDone` sets the state to `Done` from every state,
and a tick in `Done` submits nothing; but the run tick (`Init` to `Search`), tick (long
entry, order 0 placed), `CloseAndDone`, cancel of order 0, tick (long-entry signal) ends
in `LongSubmitted` with a second BUY handed to the position after `ClosePosition`: the
cancel handler has taken the strategy from `Done` back to `Search`. -/
theorem C8_submission_after_CloseAndDone :
    (∀ s, (CloseAndDone s).m_stateTrade = .Done) ∧
    (∀ (s : Strategy) (t : Tick), s.m_stateTrade = .Done → (s.tick t).trace = s.trace ∧
      (s.tick t).m_stateTrade = .Done) ∧
    ∃ s1 s2 s3,
      run false exampleInit [.tick exampleTick, .tick exampleTick, .CloseAndDone] = .ok s1 ∧
      s1.m_stateTrade = .Done ∧ s1.m_pOrder = some 0 ∧
      run false s1 [.cancel] = .ok s2 ∧ s2.m_stateTrade = .Search ∧
      run false s2 [.tick exampleTick] = .ok s3 ∧ s3.m_stateTrade = .LongSubmitted ∧
      s3.trace = submitTrace 0 .Buy ++ [.ClosePosition] ++ removeTrace 0 ++ [.reset 0] ++
        submitTrace 1 .Buy ∧
      placed s3.trace = [Order.submitted .Buy, Order.submitted .Buy] := by
  refine ⟨fun s => rfl, fun s t hs => ?_, ?_⟩
  · rw [tick_waiting s t (Or.inr (Or.inr (Or.inr hs)))]
    exact ⟨rfl, hs⟩
  · have e1 : run false exampleInit [.tick exampleTick, .tick exampleTick, .CloseAndDone] =
        .ok exampleDonePending := by
      have h : run false exampleInit [.tick exampleTick, .tick exampleTick, .CloseAndDone] =
          run false exampleSearch [.tick exampleTick, .CloseAndDone] := by
        simp [run, step, Strategy.tick, HandleRHTrading, exampleInit, exampleTick, exampleSearch]
      rw [h]
      rfl
    have hp : exampleDonePending.m_pOrder = some 0 := by rw [exampleDonePending_eq]
    have ho : exampleDonePending.orders[0]? = some (Order.submitted .Buy) := by
      rw [exampleDonePending_eq]; rfl
    have hst : exampleDonePending.m_stateTrade = .Done := by rw [exampleDonePending_eq]
    have e2 : run false exampleDonePending [.cancel] =
        .ok ({ exampleDonePending.deregistered 0 (Order.submitted .Buy) with
                m_stateTrade := .Search }.reset 0) := by
      simp only [run, step, pending_eq _ 0 hp, ho]
      rw [HandleOrderCancelled_eq false _ _ 0 _ hp ho, hst]
    have e3 : Strategy.tick ({ exampleDonePending.deregistered 0 (Order.submitted .Buy) with
          m_stateTrade := .Search }.reset 0) exampleTick =
        { exampleSearch with
          m_stateTrade := .LongSubmitted, m_pOrder := some 1,
          m_ceLongEntry := [⟨7, .fin 10.3, "Long Submit"⟩, ⟨7, .fin 10.3, "Long Submit"⟩],
          orders := [(Order.submitted .Buy).deregistered, Order.submitted .Buy],
          trace := submitTrace 0 .Buy ++ [.ClosePosition] ++ removeTrace 0 ++ [.reset 0] ++
            submitTrace 1 .Buy } := by
      rw [exampleDonePending_eq]
      exact HandleRHTrading_search_long _ _ rfl exampleTick_long
    refine ⟨_, _, _, e1, hst, hp, e2, rfl, rfl, ?_, ?_, ?_⟩
    · rw [e3]
    · rw [e3]
    · rw [e3]; rfl

/-! ### Exit step and round trip -/

/-- C9. Exit step of `Strategy::HandleRHTrading`. In `LongExit`, when `ma1 < ma3` the tick
hands exactly one order to the position, a market SELL, and the state becomes
`ExitSubmitted`; otherwise the strategy is left as it was. In `ShortExit`, when
`ma1 > ma3` the tick hands over exactly one order, a market BUY, and the state becomes
`ExitSubmitted`; otherwise the strategy is left as it was. Replacing `ma2` and the
midpoint by any other values changes neither the state after the tick nor the orders
handed over. -/
theorem C9_exit_step (bar : Bar) (s : Strategy) :
    (s.m_stateTrade = .LongExit →
      (s.m_vMA.ma1 < s.m_vMA.ma3 →
        (HandleRHTrading bar s).m_stateTrade = .ExitSubmitted ∧
        ∃ o, placed (HandleRHTrading bar s).trace = placed s.trace ++ [o] ∧
          o.eOrderType = .Market ∧ o.eOrderSide = .Sell) ∧
      (¬ s.m_vMA.ma1 < s.m_vMA.ma3 → HandleRHTrading bar s = s)) ∧
    (s.m_stateTrade = .ShortExit →
      (s.m_vMA.ma1 > s.m_vMA.ma3 →
        (HandleRHTrading bar s).m_stateTrade = .ExitSubmitted ∧
        ∃ o, placed (HandleRHTrading bar s).trace = placed s.trace ++ [o] ∧
          o.eOrderType = .Market ∧ o.eOrderSide = .Buy) ∧
      (¬ s.m_vMA.ma1 > s.m_vMA.ma3 → HandleRHTrading bar s = s)) ∧
    (s.m_stateTrade = .LongExit ∨ s.m_stateTrade = .ShortExit →
      ∀ ma2 mid : Dbl,
        (HandleRHTrading bar { s with m_vMA := { s.m_vMA with ma2 := ma2 }, m_dblMid := mid }).m_stateTrade
            = (HandleRHTrading bar s).m_stateTrade ∧
        placed (HandleRHTrading bar
            { s with m_vMA := { s.m_vMA with ma2 := ma2 }, m_dblMid := mid }).trace
          = placed (HandleRHTrading bar s).trace) := by
  refine ⟨fun hs => ⟨fun h => ?_, fun h => HandleRHTrading_longExit_idle bar s hs h⟩,
    fun hs => ⟨fun h => ?_, fun h => HandleRHTrading_shortExit_idle bar s hs h⟩,
    fun hs ma2 mid => ?_⟩
  · rw [HandleRHTrading_longExit bar s hs h]
    exact ⟨rfl, Order.submitted .Sell, by simp [placed_append, placed_submitTrace], rfl, rfl⟩
  · rw [HandleRHTrading_shortExit bar s hs h]
    exact ⟨rfl, Order.submitted .Buy, by simp [placed_append, placed_submitTrace], rfl, rfl⟩
  · let s1 : Strategy := { s with m_vMA := { s.m_vMA with ma2 := ma2 }, m_dblMid := mid }
    show (HandleRHTrading bar s1).m_stateTrade = _ ∧ placed (HandleRHTrading bar s1).trace = _
    rcases hs with hs | hs
    · have hs1 : s1.m_stateTrade = .LongExit := hs
      by_cases h : s.m_vMA.ma1 < s.m_vMA.ma3
      · rw [HandleRHTrading_longExit bar s hs h, HandleRHTrading_longExit bar s1 hs1 h]
        exact ⟨rfl, rfl⟩
      · rw [HandleRHTrading_longExit_idle bar s hs h, HandleRHTrading_longExit_idle bar s1 hs1 h]
        exact ⟨rfl, rfl⟩
    · have hs1 : s1.m_stateTrade = .ShortExit := hs
      by_cases h : s.m_vMA.ma1 > s.m_vMA.ma3
      · rw [HandleRHTrading_shortExit bar s hs h, HandleRHTrading_shortExit bar s1 hs1 h]
        exact ⟨rfl, rfl⟩
      · rw [HandleRHTrading_shortExit_idle bar s hs h,
          HandleRHTrading_shortExit_idle bar s1 hs1 h]
        exact ⟨rfl, rfl⟩

/-- Witness of C9: in `LongExit` with `ma1 = 9.7`, `ma3 = 9.9` the tick submits the closing
SELL. -/
theorem C9_exit_step_witness :
    exampleLongExit.m_stateTrade = .LongExit ∧
      exampleLongExit.m_vMA.ma1 < exampleLongExit.m_vMA.ma3 ∧
      (HandleRHTrading ⟨9⟩ exampleLongExit).m_stateTrade = .ExitSubmitted :=
  have h : exampleLongExit.m_vMA.ma1 < exampleLongExit.m_vMA.ma3 := by
    simp only [exampleLongExit, Dbl.fin_lt_fin]
    norm_num
  ⟨rfl, h, (((C9_exit_step ⟨9⟩ exampleLongExit).1 rfl).1 h).1⟩

theorem run_cons_ok (ndebug : Bool) (s s1 : Strategy) (e : Event) (es : List Event)
    (h : step ndebug s e = .ok s1) : run ndebug s (e :: es) = run ndebug s1 es := by
  simp only [run, h]

theorem placed_removeTrace (id : Nat) : placed (removeTrace id ++ [.reset id]) = [] := rfl

/-- The fill of the pending order, delivered in one of the three submitted states. -/
theorem step_fill_ok (ndebug : Bool) (s : Strategy) (dt : ptime) (id : Nat) (o : Order)
    (hp : s.m_pOrder = some id) (ho : s.orders[id]? = some o)
    (hst : s.m_stateTrade = .LongSubmitted ∨ s.m_stateTrade = .ShortSubmitted ∨
      s.m_stateTrade = .ExitSubmitted) :
    ∃ s', step ndebug s (.fill dt) = .ok s' ∧ s'.m_pOrder = none ∧
      s'.orders = s.orders.set id o.deregistered ∧
      s'.trace = s.trace ++ removeTrace id ++ [.reset id] ∧
      (s.m_stateTrade = .LongSubmitted → s'.m_stateTrade = .LongExit) ∧
      (s.m_stateTrade = .ShortSubmitted → s'.m_stateTrade = .ShortExit) ∧
      (s.m_stateTrade = .ExitSubmitted → s'.m_stateTrade = .Search) := by
  simp only [step, pending_eq s id hp, ho]
  rw [HandleOrderFilled_eq ndebug _ s id o hp ho]
  rcases hst with h | h | h <;> rw [h] <;>
    exact ⟨_, rfl, rfl, rfl, rfl, fun h' => (by first | rfl | cases h'),
      fun h' => (by first | rfl | cases h'), fun h' => (by first | rfl | cases h')⟩

/-- C10. Round trip. From `Search`, for every tick `t1` with the long-entry signal and
every later tick `t2` with `ma1 < ma3`, the events tick `t1`, fill, tick `t2`, fill go
through `LongSubmitted` (a BUY placed), `LongExit`, `ExitSubmitted` (a SELL placed) and
end in `Search` with no pending order, the position having received exactly one market
BUY followed by exactly one market SELL. -/
theorem C10_round_trip (ndebug : Bool) (s : Strategy) (t1 t2 : Tick) (dt1 dt2 : ptime)
    (hs : s.m_stateTrade = .Search) (h1 : t1.longSignal) (h2 : t2.ma.ma1 < t2.ma.ma3) :
    (∃ s1, run ndebug s [.tick t1] = .ok s1 ∧ s1.m_stateTrade = .LongSubmitted ∧
      placed s1.trace = placed s.trace ++ [Order.submitted .Buy]) ∧
    (∃ s2, run ndebug s [.tick t1, .fill dt1] = .ok s2 ∧ s2.m_stateTrade = .LongExit ∧
      placed s2.trace = placed s.trace ++ [Order.submitted .Buy]) ∧
    (∃ s3, run ndebug s [.tick t1, .fill dt1, .tick t2] = .ok s3 ∧
      s3.m_stateTrade = .ExitSubmitted ∧
      placed s3.trace = placed s.trace ++ [Order.submitted .Buy, Order.submitted .Sell]) ∧
    (∃ s4, run ndebug s [.tick t1, .fill dt1, .tick t2, .fill dt2] = .ok s4 ∧
      s4.m_stateTrade = .Search ∧ s4.m_pOrder = none ∧
      placed s4.trace = placed s.trace ++ [Order.submitted .Buy, Order.submitted .Sell]) := by
  -- tick t1: long entry
  let a : Strategy := { s with m_vMA := t1.ma, m_dblMid := t1.mid }
  have e1 : s.tick t1 = _ := HandleRHTrading_search_long t1.bar a hs h1
  have st1 : (s.tick t1).m_stateTrade = .LongSubmitted := by rw [e1]
  have p1 : (s.tick t1).m_pOrder = some s.orders.length := by rw [e1]
  have o1 : (s.tick t1).orders[s.orders.length]? = some (Order.submitted .Buy) := by
    rw [e1]; simp [a]
  have tr1 : placed (s.tick t1).trace = placed s.trace ++ [Order.submitted .Buy] := by
    rw [e1]; simp [a, placed_append, placed_submitTrace]
  have r1 : step ndebug s (.tick t1) = .ok (s.tick t1) := rfl
  -- fill of the BUY
  obtain ⟨s2, r2, p2, _, t2', n2, _, _⟩ :=
    step_fill_ok ndebug (s.tick t1) dt1 _ _ p1 o1 (Or.inl st1)
  have st2 : s2.m_stateTrade = .LongExit := n2 st1
  have tr2 : placed s2.trace = placed s.trace ++ [Order.submitted .Buy] := by
    rw [t2', List.append_assoc, placed_append, placed_removeTrace, tr1, List.append_nil]
  -- tick t2: long exit
  let b : Strategy := { s2 with m_vMA := t2.ma, m_dblMid := t2.mid }
  have e3 : s2.tick t2 = _ := HandleRHTrading_longExit t2.bar b st2 h2
  have st3 : (s2.tick t2).m_stateTrade = .ExitSubmitted := by rw [e3]
  have p3 : (s2.tick t2).m_pOrder = some s2.orders.length := by rw [e3]
  have o3 : (s2.tick t2).orders[s2.orders.length]? = some (Order.submitted .Sell) := by
    rw [e3]; simp [b]
  have tr3 : placed (s2.tick t2).trace =
      placed s.trace ++ [Order.submitted .Buy, Order.submitted .Sell] := by
    rw [e3]
    show placed (s2.trace ++ _) = _
    rw [placed_append, placed_submitTrace, tr2]
    simp
  have r3 : step ndebug s2 (.tick t2) = .ok (s2.tick t2) := rfl
  -- fill of the SELL
  obtain ⟨s4, r4, p4, _, t4, _, _, n4⟩ :=
    step_fill_ok ndebug (s2.tick t2) dt2 _ _ p3 o3 (Or.inr (Or.inr st3))
  have tr4 : placed s4.trace =
      placed s.trace ++ [Order.submitted .Buy, Order.submitted .Sell] := by
    rw [t4, List.append_assoc, placed_append, placed_removeTrace, tr3, List.append_nil]
  refine ⟨⟨_, rfl, st1, tr1⟩, ⟨s2, ?_, st2, tr2⟩, ⟨s2.tick t2, ?_, st3, tr3⟩,
    ⟨s4, ?_, n4 st3, p4, tr4⟩⟩
  · rw [run_cons_ok ndebug _ _ _ _ r1, run_cons_ok ndebug _ _ _ _ r2]; rfl
  · rw [run_cons_ok ndebug _ _ _ _ r1, run_cons_ok ndebug _ _ _ _ r2,
      run_cons_ok ndebug _ _ _ _ r3]; rfl
  · rw [run_cons_ok ndebug _ _ _ _ r1, run_cons_ok ndebug _ _ _ _ r2,
      run_cons_ok ndebug _ _ _ _ r3, run_cons_ok ndebug _ _ _ _ r4]; rfl

theorem exampleExitTick_exit : exampleExitTick.ma.ma1 < exampleExitTick.ma.ma3 := by
  simp only [exampleExitTick, Dbl.fin_lt_fin]
  norm_num

/-- Witness of C10: the scenario `ma1 = 10.2`, `ma2 = 10.1`, `ma3 = 9.8`, `mid = 10.3`,
fill, `ma1 = 9.7`, `ma3 = 9.9`, fill. -/
theorem C10_round_trip_witness :
    exampleSearch.m_stateTrade = .Search ∧ exampleTick.longSignal ∧
      exampleExitTick.ma.ma1 < exampleExitTick.ma.ma3 ∧
      ∃ s4, run false exampleSearch
          [.tick exampleTick, .fill 8, .tick exampleExitTick, .fill 10] = .ok s4 ∧
        s4.m_stateTrade = .Search ∧ s4.m_pOrder = none ∧
        placed s4.trace = [Order.submitted .Buy, Order.submitted .Sell] :=
  ⟨rfl, exampleTick_long, exampleExitTick_exit,
    (C10_round_trip false exampleSearch exampleTick exampleExitTick 8 10 rfl exampleTick_long
      exampleExitTick_exit).2.2.2⟩

/-! ### Ticks in the states that take no decision -/

/-- C19. Ticks in the non-deciding states, whatever the indicator values and the midpoint:
in `Init` the tick sets the state to `Search` and changes nothing else (no order is
constructed or placed); in `LongSubmitted`, `ShortSubmitted` and `ExitSubmitted` the tick
leaves the strategy as it was (state, pending order, trace); in `Done` the tick leaves the
strategy as it was, and so does every sequence of ticks: `Done` is terminal under
ticks. -/
theorem C19_idle_ticks (bar : Bar) (s : Strategy) :
    (s.m_stateTrade = .Init →
      HandleRHTrading bar s = { s with m_stateTrade := .Search } ∧
      placed (HandleRHTrading bar s).trace = placed s.trace ∧
      constructed (HandleRHTrading bar s).trace = constructed s.trace ∧
      (HandleRHTrading bar s).m_pOrder = s.m_pOrder) ∧
    (s.m_stateTrade = .LongSubmitted ∨ s.m_stateTrade = .ShortSubmitted ∨
        s.m_stateTrade = .ExitSubmitted → HandleRHTrading bar s = s) ∧
    (s.m_stateTrade = .Done →
      HandleRHTrading bar s = s ∧
      ∀ ts : List Tick, (runTicks s ts).m_stateTrade = .Done ∧
        (runTicks s ts).trace = s.trace ∧ (runTicks s ts).m_pOrder = s.m_pOrder) := by
  refine ⟨fun h => ?_, fun h => ?_, fun h => ⟨?_, fun ts => ?_⟩⟩
  · have e : HandleRHTrading bar s = { s with m_stateTrade := .Search } := by
      simp [HandleRHTrading, h]
    rw [e]
    exact ⟨rfl, rfl, rfl, rfl⟩
  · rcases h with h | h | h <;> simp [HandleRHTrading, h]
  · simp [HandleRHTrading, h]
  · have hw := runTicks_waiting ts s (Or.inr (Or.inr (Or.inr h)))
    exact ⟨hw.1.trans h, hw.2.1, hw.2.2.1⟩

/-- Witness of C19: a tick on the constructed strategy gives `Search`, and a tick while the
exit order is in flight changes nothing. -/
theorem C19_idle_ticks_witness :
    exampleInit.m_stateTrade = .Init ∧
      (HandleRHTrading ⟨1⟩ exampleInit).m_stateTrade = .Search ∧
      HandleRHTrading ⟨1⟩ exampleExitSubmitted = exampleExitSubmitted :=
  ⟨rfl, by rw [((C19_idle_ticks ⟨1⟩ exampleInit).1 rfl).1],
    (C19_idle_ticks ⟨1⟩ exampleExitSubmitted).2.1 (Or.inr (Or.inr rfl))⟩

/-! ### Net position -/

theorem pending_after_submit (s s' : Strategy) (o : Order)
    (hp : s'.m_pOrder = some s.orders.length) (ho : s'.orders = s.orders ++ [o]) :
    s'.pending = some o := by
  rw [pending_eq s' _ hp, ho]
  simp

theorem HandleRHTrading_init (bar : Bar) (s : Strategy) (h : s.m_stateTrade = .Init) :
    HandleRHTrading bar s = { s with m_stateTrade := .Search } := by
  simp [HandleRHTrading, h]

theorem HandleRHTrading_waiting (bar : Bar) (s : Strategy)
    (h : s.m_stateTrade = .LongSubmitted ∨ s.m_stateTrade = .ShortSubmitted ∨
      s.m_stateTrade = .ExitSubmitted ∨ s.m_stateTrade = .Done) :
    HandleRHTrading bar s = s := by
  rcases h with h | h | h | h <;> simp [HandleRHTrading, h]

theorem netInv_HandleRHTrading (bar : Bar) (s1 : Strategy) (n : Int) (h1 : NetInv s1 n) :
    NetInv (HandleRHTrading bar s1) n := by
  cases hs : s1.m_stateTrade
  case Init =>
    rw [HandleRHTrading_init bar s1 hs]
    simp only [NetInv, hs] at h1
    exact h1
  case Search =>
    simp only [NetInv, hs] at h1
    by_cases hl : s1.m_vMA.ma1 > s1.m_vMA.ma3 ∧ s1.m_vMA.ma2 > s1.m_vMA.ma3 ∧
        s1.m_dblMid > s1.m_vMA.ma1
    · have e := HandleRHTrading_search_long bar s1 hs hl
      have hp := pending_after_submit s1 (HandleRHTrading bar s1) (Order.submitted .Buy)
        (by rw [e]) (by rw [e])
      have hst : (HandleRHTrading bar s1).m_stateTrade = .LongSubmitted := by rw [e]
      simp only [NetInv, hst]
      exact ⟨hp, h1.2⟩
    · by_cases hsh : s1.m_vMA.ma1 < s1.m_vMA.ma3 ∧ s1.m_vMA.ma2 < s1.m_vMA.ma3 ∧
          s1.m_dblMid < s1.m_vMA.ma1
      · have e := HandleRHTrading_search_short bar s1 hs hl hsh
        have hp := pending_after_submit s1 (HandleRHTrading bar s1) (Order.submitted .Sell)
          (by rw [e]) (by rw [e])
        have hst : (HandleRHTrading bar s1).m_stateTrade = .ShortSubmitted := by rw [e]
        simp only [NetInv, hst]
        exact ⟨hp, h1.2⟩
      · rw [HandleRHTrading_search_idle bar s1 hs hl hsh]
        simp only [NetInv, hs]
        exact h1
  case LongExit =>
    simp only [NetInv, hs] at h1
    by_cases hx : s1.m_vMA.ma1 < s1.m_vMA.ma3
    · have e := HandleRHTrading_longExit bar s1 hs hx
      have hp := pending_after_submit s1 (HandleRHTrading bar s1) (Order.submitted .Sell)
        (by rw [e]) (by rw [e])
      have hst : (HandleRHTrading bar s1).m_stateTrade = .ExitSubmitted := by rw [e]
      simp only [NetInv, hst]
      exact Or.inl ⟨hp, h1.2⟩
    · rw [HandleRHTrading_longExit_idle bar s1 hs hx]
      simp only [NetInv, hs]
      exact h1
  case ShortExit =>
    simp only [NetInv, hs] at h1
    by_cases hx : s1.m_vMA.ma1 > s1.m_vMA.ma3
    · have e := HandleRHTrading_shortExit bar s1 hs hx
      have hp := pending_after_submit s1 (HandleRHTrading bar s1) (Order.submitted .Buy)
        (by rw [e]) (by rw [e])
      have hst : (HandleRHTrading bar s1).m_stateTrade = .ExitSubmitted := by rw [e]
      simp only [NetInv, hst]
      exact Or.inr ⟨hp, h1.2⟩
    · rw [HandleRHTrading_shortExit_idle bar s1 hs hx]
      simp only [NetInv, hs]
      exact h1
  case LongSubmitted =>
    rw [HandleRHTrading_waiting bar s1 (Or.inl hs)]; exact h1
  case ShortSubmitted =>
    rw [HandleRHTrading_waiting bar s1 (Or.inr (Or.inl hs))]; exact h1
  case ExitSubmitted =>
    rw [HandleRHTrading_waiting bar s1 (Or.inr (Or.inr (Or.inl hs)))]; exact h1
  case Done =>
    simp only [NetInv, hs] at h1

theorem netInv_tick (s : Strategy) (t : Tick) (n : Int) (h : NetInv s n) :
    NetInv (s.tick t) n :=
  netInv_HandleRHTrading t.bar { s with m_vMA := t.ma, m_dblMid := t.mid } n h

theorem pending_some (s : Strategy) (o : Order) (h : s.pending = some o) :
    ∃ id, s.m_pOrder = some id ∧ s.orders[id]? = some o := by
  cases hp : s.m_pOrder with
  | none => simp [Strategy.pending, hp] at h
  | some id => exact ⟨id, rfl, by rw [← pending_eq s id hp]; exact h⟩

theorem pending_none (s : Strategy) (h : s.m_pOrder = none) : s.pending = none := by
  simp [Strategy.pending, h]

/-- The cancel of the pending order, delivered outside `ExitSubmitted`. -/
theorem step_cancel_ok (ndebug : Bool) (s : Strategy) (id : Nat) (o : Order)
    (hp : s.m_pOrder = some id) (ho : s.orders[id]? = some o)
    (hst : s.m_stateTrade ≠ .ExitSubmitted) :
    ∃ s', step ndebug s .cancel = .ok s' ∧ s'.m_pOrder = none ∧ s'.m_stateTrade = .Search := by
  simp only [step, pending_eq s id hp, ho]
  rw [HandleOrderCancelled_eq ndebug _ s id o hp ho]
  cases h : s.m_stateTrade <;> simp [h] at hst ⊢ <;> exact ⟨rfl, rfl⟩

theorem netInv_step (ndebug : Bool) (s s' : Strategy) (e : Event) (n : Int) (h : NetInv s n)
    (hpl : e.plain s = true) (hst : step ndebug s e = .ok s') :
    NetInv s' (n + filledBy s e) := by
  cases e with
  | tick t =>
    injection hst with hst
    subst hst
    simp only [filledBy, add_zero]
    exact netInv_tick s t n h
  | CloseAndDone => simp [Event.plain] at hpl
  | fill dt =>
    cases hpe : s.pending with
    | none => simp [step, hpe] at hst
    | some o =>
      obtain ⟨id, hp, ho⟩ := pending_some s o hpe
      have hnn : s.m_pOrder ≠ none := by rw [hp]; simp
      simp only [filledBy, hpe]
      cases hs : s.m_stateTrade <;> simp only [NetInv, hs] at h
      case Init => exact absurd h.1 hnn
      case Search => exact absurd h.1 hnn
      case LongExit => exact absurd h.1 hnn
      case ShortExit => exact absurd h.1 hnn
      case LongSubmitted =>
        obtain ⟨s2, r, p2, _, _, n1, _, _⟩ := step_fill_ok ndebug s dt id o hp ho (Or.inl hs)
        rw [hst] at r
        injection r with r
        subst r
        have ho' : o = Order.submitted .Buy := by
          rw [hpe] at h; exact Option.some.inj h.1
        simp only [NetInv, n1 hs, ho', h.2]
        exact ⟨p2, by decide⟩
      case ShortSubmitted =>
        obtain ⟨s2, r, p2, _, _, _, n1, _⟩ :=
          step_fill_ok ndebug s dt id o hp ho (Or.inr (Or.inl hs))
        rw [hst] at r
        injection r with r
        subst r
        have ho' : o = Order.submitted .Sell := by
          rw [hpe] at h; exact Option.some.inj h.1
        simp only [NetInv, n1 hs, ho', h.2]
        exact ⟨p2, by decide⟩
      case ExitSubmitted =>
        obtain ⟨s2, r, p2, _, _, _, _, n1⟩ :=
          step_fill_ok ndebug s dt id o hp ho (Or.inr (Or.inr hs))
        rw [hst] at r
        injection r with r
        subst r
        simp only [NetInv, n1 hs]
        rcases h with ⟨h1, h2⟩ | ⟨h1, h2⟩
        · have ho' : o = Order.submitted .Sell := by
            rw [hpe] at h1; exact Option.some.inj h1
          rw [ho', h2]
          exact ⟨p2, by decide⟩
        · have ho' : o = Order.submitted .Buy := by
            rw [hpe] at h1; exact Option.some.inj h1
          rw [ho', h2]
          exact ⟨p2, by decide⟩
  | cancel =>
    have hne : s.m_stateTrade ≠ .ExitSubmitted := by simpa [Event.plain] using hpl
    cases hpe : s.pending with
    | none => simp [step, hpe] at hst
    | some o =>
      obtain ⟨id, hp, ho⟩ := pending_some s o hpe
      have hnn : s.m_pOrder ≠ none := by rw [hp]; simp
      obtain ⟨s2, r, p2, st2⟩ := step_cancel_ok ndebug s id o hp ho hne
      rw [hst] at r
      injection r with r
      subst r
      simp only [filledBy, add_zero, NetInv, st2]
      refine ⟨p2, ?_⟩
      cases hs : s.m_stateTrade <;> simp only [NetInv, hs] at h
      case Init => exact h.2
      case Search => exact h.2
      case LongSubmitted => exact h.2
      case ShortSubmitted => exact h.2
      case LongExit => exact absurd h.1 hnn
      case ShortExit => exact absurd h.1 hnn
      case ExitSubmitted => exact absurd hs hne

theorem netInv_run (ndebug : Bool) (evs : List Event) (s s' : Strategy) (n : Int)
    (h : NetInv s n) (hpl : plainRun ndebug s evs = true) (hrun : run ndebug s evs = .ok s') :
    NetInv s' (n + filledSum ndebug s evs) := by
  induction evs generalizing s n with
  | nil =>
    injection hrun with hrun
    subst hrun
    simpa [filledSum] using h
  | cons e es ih =>
    simp only [run] at hrun
    simp only [plainRun, Bool.and_eq_true] at hpl
    cases hst : step ndebug s e with
    | ok s1 =>
      rw [hst] at hrun
      simp only [hst] at hpl
      have := ih s1 (n + filledBy s e) (netInv_step ndebug s s1 e n h hpl.1 hst) hpl.2 hrun
      simp only [filledSum, hst]
      rw [← add_assoc]
      exact this
    | abort s1 => rw [hst] at hrun; cases hrun
    | undefined => rw [hst] at hrun; cases hrun

/-- C20. Net position of the strategy's own orders. Along every run from the constructed
strategy made of session ticks and of fill/cancel notifications of the pending order
(no `CloseAndDone`, no cancel delivered in `ExitSubmitted`): the signed sum of the filled
quantities is -100, 0 or +100; it is +100 exactly in `LongExit` and in `ExitSubmitted`
with the closing SELL pending, -100 exactly in `ShortExit` and in `ExitSubmitted` with the
closing BUY pending, and 0 in `Init`, `Search`, `LongSubmitted` and `ShortSubmitted`; and
a tick hands at most one order to the position, a market order for 100. -/
theorem C20_net_position (ndebug : Bool) (s0 : Strategy) (h0 : s0.IsInitial)
    (evs : List Event) (s : Strategy) (hpl : plainRun ndebug s0 evs = true)
    (hrun : run ndebug s0 evs = .ok s) :
    (filledSum ndebug s0 evs = -100 ∨ filledSum ndebug s0 evs = 0 ∨
      filledSum ndebug s0 evs = 100) ∧
    (filledSum ndebug s0 evs = 100 ↔
      s.m_stateTrade = .LongExit ∨
        (s.m_stateTrade = .ExitSubmitted ∧ ∃ o, s.pending = some o ∧ o.eOrderSide = .Sell)) ∧
    (filledSum ndebug s0 evs = -100 ↔
      s.m_stateTrade = .ShortExit ∨
        (s.m_stateTrade = .ExitSubmitted ∧ ∃ o, s.pending = some o ∧ o.eOrderSide = .Buy)) ∧
    (s.m_stateTrade = .Init ∨ s.m_stateTrade = .Search ∨ s.m_stateTrade = .LongSubmitted ∨
      s.m_stateTrade = .ShortSubmitted → filledSum ndebug s0 evs = 0) ∧
    (∀ t : Tick, placed (s.tick t).trace = placed s.trace ∨
      ∃ o, placed (s.tick t).trace = placed s.trace ++ [o] ∧ o.eOrderType = .Market ∧
        o.nOrderQuantity = 100) := by
  have hinit : NetInv s0 0 := by
    simp only [NetInv, h0.1]
    exact ⟨h0.2.1, trivial⟩
  have hinv := netInv_run ndebug evs s0 s 0 hinit hpl hrun
  rw [zero_add] at hinv
  generalize filledSum ndebug s0 evs = n at hinv ⊢
  refine ⟨?_, ?_, ?_, ?_, fun t => ?_⟩
  · cases hs : s.m_stateTrade <;> simp only [NetInv, hs] at hinv
    case Init => exact Or.inr (Or.inl hinv.2)
    case Search => exact Or.inr (Or.inl hinv.2)
    case LongSubmitted => exact Or.inr (Or.inl hinv.2)
    case ShortSubmitted => exact Or.inr (Or.inl hinv.2)
    case LongExit => exact Or.inr (Or.inr hinv.2)
    case ShortExit => exact Or.inl hinv.2
    case ExitSubmitted =>
      rcases hinv with h | h
      · exact Or.inr (Or.inr h.2)
      · exact Or.inl h.2
  · cases hs : s.m_stateTrade <;> simp only [NetInv, hs] at hinv
    case ExitSubmitted =>
      rcases hinv with ⟨h1, h2⟩ | ⟨h1, h2⟩
      · rw [h2, h1]
        simp [Order.submitted]
      · rw [h2, h1]
        simp [Order.submitted]
    all_goals (rw [hinv.2]; simp)
  · cases hs : s.m_stateTrade <;> simp only [NetInv, hs] at hinv
    case ExitSubmitted =>
      rcases hinv with ⟨h1, h2⟩ | ⟨h1, h2⟩
      · rw [h2, h1]
        simp [Order.submitted]
      · rw [h2, h1]
        simp [Order.submitted]
    all_goals (rw [hinv.2]; simp)
  · intro h
    cases hs : s.m_stateTrade <;> simp only [NetInv, hs] at hinv <;> rw [hs] at h <;>
      first
        | exact hinv.2
        | simp at h
  · have htick : s.tick t = HandleRHTrading t.bar { s with m_vMA := t.ma, m_dblMid := t.mid } :=
      rfl
    rcases HandleRHTrading_cases t.bar { s with m_vMA := t.ma, m_dblMid := t.mid } with
      h | ⟨_, h⟩ | ⟨side, _, _, _, _, ht⟩
    · rw [htick, h]; exact Or.inl rfl
    · rw [htick, h]; exact Or.inl rfl
    · refine Or.inr ⟨Order.submitted side, ?_, rfl, rfl⟩
      rw [htick, ht, placed_append, placed_submitTrace]

theorem exampleRun_long :
    run false exampleInit [.tick exampleTick, .tick exampleTick, .fill 8] =
      .ok ({ (HandleRHTrading ⟨7⟩ exampleSearch).deregistered 0 (Order.submitted .Buy) with
              m_ceLongFill := [⟨8, .fin 10.3, "Long Fill"⟩]
              m_stateTrade := .LongExit }.reset 0) := by
  have e1 : step false exampleInit (.tick exampleTick) = .ok exampleSearch := by
    simp [step, Strategy.tick, HandleRHTrading, exampleInit, exampleTick, exampleSearch]
  have e2 : step false exampleSearch (.tick exampleTick) =
      .ok (HandleRHTrading ⟨7⟩ exampleSearch) := rfl
  have hp : (HandleRHTrading ⟨7⟩ exampleSearch).m_pOrder = some 0 := by
    rw [exampleSearch_tick]
  have ho : (HandleRHTrading ⟨7⟩ exampleSearch).orders[0]? = some (Order.submitted .Buy) := by
    rw [exampleSearch_tick]; rfl
  rw [run_cons_ok false _ _ _ _ e1, run_cons_ok false _ _ _ _ e2]
  simp only [run, step, pending_eq _ 0 hp, ho]
  rw [HandleOrderFilled_eq false _ _ 0 _ hp ho]
  rw [exampleSearch_tick]
  rfl

theorem exampleRun_plain :
    plainRun false exampleInit [.tick exampleTick, .tick exampleTick, .fill 8] = true := by
  have e1 : step false exampleInit (.tick exampleTick) = .ok exampleSearch := by
    simp [step, Strategy.tick, HandleRHTrading, exampleInit, exampleTick, exampleSearch]
  have e2 : step false exampleSearch (.tick exampleTick) =
      .ok (HandleRHTrading ⟨7⟩ exampleSearch) := rfl
  have hp : (HandleRHTrading ⟨7⟩ exampleSearch).m_pOrder = some 0 := by
    rw [exampleSearch_tick]
  have ho : (HandleRHTrading ⟨7⟩ exampleSearch).orders[0]? = some (Order.submitted .Buy) := by
    rw [exampleSearch_tick]; rfl
  have hst : (HandleRHTrading ⟨7⟩ exampleSearch).m_stateTrade = .LongSubmitted := by
    rw [exampleSearch_tick]
  obtain ⟨s3, e3, _⟩ := step_fill_ok false (HandleRHTrading ⟨7⟩ exampleSearch) 8 0 _ hp ho
    (Or.inl hst)
  simp only [plainRun, e1, e2, e3, Event.plain, Bool.and_self]

/-- Witness of C20: tick (`Init` to `Search`), tick (long entry), fill: the strategy is in
`LongExit` and the fills sum to +100. -/
theorem C20_net_position_witness :
    exampleInit.IsInitial ∧
      plainRun false exampleInit [.tick exampleTick, .tick exampleTick, .fill 8] = true ∧
      ∃ s, run false exampleInit [.tick exampleTick, .tick exampleTick, .fill 8] = .ok s ∧
        s.m_stateTrade = .LongExit ∧
        filledSum false exampleInit [.tick exampleTick, .tick exampleTick, .fill 8] = 100 :=
  have h0 : exampleInit.IsInitial := ⟨rfl, rfl, fun _ h => absurd h (List.not_mem_nil _)⟩
  ⟨h0, exampleRun_plain, _, exampleRun_long, rfl,
    (C20_net_position false exampleInit h0 _ _ exampleRun_plain exampleRun_long).2.1.2
      (Or.inl rfl)⟩

/-! ### The asset directory -/

theorem lookup_append_single (m : mapAssetId_t) (k k' v : String) :
    List.lookup k (m ++ [(k', v)]) =
      match List.lookup k m with
      | some x => some x
      | none => if k = k' then some v else none := by
  induction m with
  | nil =>
    by_cases h : k = k'
    · subst h; simp [List.lookup]
    · have : (k == k') = false := by simpa using h
      simp [List.lookup, this, h]
  | cons kv m ih =>
    obtain ⟨a, b⟩ := kv
    by_cases h : k = a
    · subst h; simp [List.lookup]
    · have : (k == a) = false := by simpa using h
      simp only [List.cons_append, List.lookup, this]
      exact ih

theorem entries_append_single (m : mapAssetId_t) (k k' v : String) :
    entries (m ++ [(k', v)]) k = entries m k + if k' = k then 1 else 0 := by
  by_cases h : k' = k
  · simp [entries, List.filter_append, h]
  · simp [entries, List.filter_append, h]

theorem lookup_none_entries (m : mapAssetId_t) (k : String) (h : List.lookup k m = none) :
    entries m k = 0 := by
  induction m with
  | nil => rfl
  | cons kv m ih =>
    obtain ⟨a, b⟩ := kv
    by_cases hk : k = a
    · subst hk; simp [List.lookup] at h
    · have hb : (k == a) = false := by simpa using hk
      simp only [List.lookup, hb] at h
      have hne : ¬ a = k := fun e => hk e.symm
      have ih' := ih h
      simp only [entries] at ih' ⊢
      simp [List.filter_cons, hne, ih']

theorem addAsset_present (p : Provider) (vt : AssetMessage) (id : String)
    (h : List.lookup vt.symbol p.m_mapAssetId = some id) :
    p.addAsset vt =
      { p with cout := p.cout ++ ["asset: " ++ vt.symbol ++ " already exists with " ++ id] } := by
  simp [Provider.addAsset, h]

theorem addAsset_absent (p : Provider) (vt : AssetMessage)
    (h : List.lookup vt.symbol p.m_mapAssetId = none) :
    p.addAsset vt = { p with m_mapAssetId := p.m_mapAssetId ++ [(vt.symbol, vt.id)] } := by
  simp [Provider.addAsset, h]

theorem lookup_addAsset_of_some (p : Provider) (vt : AssetMessage) (k x : String)
    (h : List.lookup k p.m_mapAssetId = some x) :
    List.lookup k (p.addAsset vt).m_mapAssetId = some x := by
  cases hv : List.lookup vt.symbol p.m_mapAssetId with
  | some id => rw [addAsset_present p vt id hv]; exact h
  | none =>
    rw [addAsset_absent p vt hv]
    show List.lookup k (p.m_mapAssetId ++ [(vt.symbol, vt.id)]) = some x
    rw [lookup_append_single, h]

theorem lookup_foldl_of_some (l : List AssetMessage) (p : Provider) (k x : String)
    (h : List.lookup k p.m_mapAssetId = some x) :
    List.lookup k (l.foldl Provider.addAsset p).m_mapAssetId = some x := by
  induction l generalizing p with
  | nil => exact h
  | cons vt l ih => exact ih (p.addAsset vt) (lookup_addAsset_of_some p vt k x h)

theorem lookup_addAsset_self (p : Provider) (vt : AssetMessage) :
    ∃ x, List.lookup vt.symbol (p.addAsset vt).m_mapAssetId = some x := by
  cases hv : List.lookup vt.symbol p.m_mapAssetId with
  | some id => exact ⟨id, by rw [addAsset_present p vt id hv]; exact hv⟩
  | none =>
    refine ⟨vt.id, ?_⟩
    rw [addAsset_absent p vt hv]
    show List.lookup vt.symbol (p.m_mapAssetId ++ [(vt.symbol, vt.id)]) = some vt.id
    rw [lookup_append_single, hv]
    simp

/-- After a response has been processed every symbol of the response is in the
directory. -/
theorem lookup_foldl_mem (l : List AssetMessage) (p : Provider) (vt : AssetMessage)
    (h : vt ∈ l) : ∃ x, List.lookup vt.symbol (l.foldl Provider.addAsset p).m_mapAssetId = some x := by
  induction l generalizing p with
  | nil => cases h
  | cons a l ih =>
    rcases List.mem_cons.1 h with h | h
    · subst h
      obtain ⟨x, hx⟩ := lookup_addAsset_self p vt
      exact ⟨x, lookup_foldl_of_some l (p.addAsset vt) vt.symbol x hx⟩
    · exact ih (p.addAsset a) h

/-- Records whose symbols are all in the directory leave the directory as it is. -/
theorem foldl_all_present (l : List AssetMessage) (p : Provider)
    (h : ∀ vt ∈ l, ∃ x, List.lookup vt.symbol p.m_mapAssetId = some x) :
    (l.foldl Provider.addAsset p).m_mapAssetId = p.m_mapAssetId := by
  induction l generalizing p with
  | nil => rfl
  | cons a l ih =>
    obtain ⟨x, hx⟩ := h a (List.mem_cons_self a l)
    have e : (p.addAsset a).m_mapAssetId = p.m_mapAssetId := by
      rw [addAsset_present p a x hx]
    show (l.foldl Provider.addAsset (p.addAsset a)).m_mapAssetId = p.m_mapAssetId
    rw [ih (p.addAsset a) (by rw [e]; exact fun vt hvt => h vt (List.mem_cons_of_mem a hvt)), e]

theorem addAsset_directory_congr (p q : Provider) (a : AssetMessage)
    (h : p.m_mapAssetId = q.m_mapAssetId) :
    (p.addAsset a).m_mapAssetId = (q.addAsset a).m_mapAssetId := by
  cases hv : List.lookup a.symbol p.m_mapAssetId with
  | some id =>
    rw [addAsset_present p a id hv, addAsset_present q a id (by rw [← h]; exact hv)]
    exact h
  | none =>
    rw [addAsset_absent p a hv, addAsset_absent q a (by rw [← h]; exact hv)]
    show p.m_mapAssetId ++ _ = q.m_mapAssetId ++ _
    rw [h]

/-- The directory after a response depends on the directory before it only. -/
theorem foldl_directory_congr (l : List AssetMessage) (p q : Provider)
    (h : p.m_mapAssetId = q.m_mapAssetId) :
    (l.foldl Provider.addAsset p).m_mapAssetId = (l.foldl Provider.addAsset q).m_mapAssetId := by
  induction l generalizing p q with
  | nil => exact h
  | cons a l ih => exact ih (p.addAsset a) (q.addAsset a) (addAsset_directory_congr p q a h)

theorem OnAssets_directory (jecFailed : String → Bool) (Decode : String → List AssetMessage)
    (p : Provider) (message : String) (h : jecFailed message = false) :
    (Provider.OnAssets jecFailed Decode p true message).m_mapAssetId =
      ((Decode message).foldl Provider.addAsset p).m_mapAssetId := by
  simp [Provider.OnAssets, h]

/-- C11. Population of the asset directory never overwrites and is idempotent. (a) A
record whose symbol is in the directory leaves the directory as it is and writes exactly
the line "asset: <symbol> already exists with <stored id>". (b) Whatever identifier a
symbol has at some point of a response (from before the response or from an earlier
record of it), it still has at the end of the response. (c) Two records with the same
symbol, new to the directory, add exactly one entry, holding the identifier of the first.
(d) Handling the same response a second time leaves the directory unchanged. -/
theorem C11_directory_idempotent :
    (∀ (p : Provider) (vt : AssetMessage) (id : String),
      List.lookup vt.symbol p.m_mapAssetId = some id →
      (p.addAsset vt).m_mapAssetId = p.m_mapAssetId ∧
      (p.addAsset vt).cout =
        p.cout ++ ["asset: " ++ vt.symbol ++ " already exists with " ++ id]) ∧
    (∀ (p : Provider) (l1 l2 : List AssetMessage) (symbol id : String),
      List.lookup symbol (l1.foldl Provider.addAsset p).m_mapAssetId = some id →
      List.lookup symbol ((l1 ++ l2).foldl Provider.addAsset p).m_mapAssetId = some id) ∧
    (∀ (p : Provider) (a b : AssetMessage), a.symbol = b.symbol →
      List.lookup a.symbol p.m_mapAssetId = none →
      ([a, b].foldl Provider.addAsset p).m_mapAssetId = p.m_mapAssetId ++ [(a.symbol, a.id)] ∧
      List.lookup a.symbol ([a, b].foldl Provider.addAsset p).m_mapAssetId = some a.id ∧
      entries ([a, b].foldl Provider.addAsset p).m_mapAssetId a.symbol = 1) ∧
    (∀ (jecFailed : String → Bool) (Decode : String → List AssetMessage) (p : Provider)
        (message : String),
      (Provider.OnAssets jecFailed Decode (Provider.OnAssets jecFailed Decode p true message)
          true message).m_mapAssetId =
        (Provider.OnAssets jecFailed Decode p true message).m_mapAssetId) := by
  refine ⟨fun p vt id h => ?_, fun p l1 l2 symbol id h => ?_, fun p a b hab hn => ?_,
    fun jecFailed Decode p message => ?_⟩
  · rw [addAsset_present p vt id h]
    exact ⟨rfl, rfl⟩
  · rw [List.foldl_append]
    exact lookup_foldl_of_some l2 _ symbol id h
  · have h1 : List.lookup a.symbol (p.addAsset a).m_mapAssetId = some a.id := by
      rw [addAsset_absent p a hn]
      show List.lookup a.symbol (p.m_mapAssetId ++ [(a.symbol, a.id)]) = some a.id
      rw [lookup_append_single, hn]
      simp
    have e : [a, b].foldl Provider.addAsset p =
        { p.addAsset a with
          cout := (p.addAsset a).cout ++
            ["asset: " ++ b.symbol ++ " already exists with " ++ a.id] } := by
      show (p.addAsset a).addAsset b = _
      rw [addAsset_present (p.addAsset a) b a.id (by rw [← hab]; exact h1)]
    have ed : ([a, b].foldl Provider.addAsset p).m_mapAssetId =
        p.m_mapAssetId ++ [(a.symbol, a.id)] := by
      rw [e, addAsset_absent p a hn]
    refine ⟨ed, ?_, ?_⟩
    · rw [ed, lookup_append_single, hn]; simp
    · rw [ed, entries_append_single, lookup_none_entries _ _ hn]; simp
  · by_cases hj : jecFailed message = true
    · simp [Provider.OnAssets, hj]
    · have hj' : jecFailed message = false := by simpa using hj
      rw [OnAssets_directory jecFailed Decode _ message hj',
        OnAssets_directory jecFailed Decode p message hj']
      rw [foldl_directory_congr (Decode message) _ ((Decode message).foldl Provider.addAsset p)
        (OnAssets_directory jecFailed Decode p message hj')]
      exact foldl_all_present (Decode message) _
        (fun vt hvt => lookup_foldl_mem (Decode message) p vt hvt)

/-- Witness of C11: the symbol GLD fed twice with two identifiers leaves one entry, with
the first identifier. -/
theorem C11_directory_idempotent_witness :
    (exampleAssets.foldl Provider.addAsset exampleProvider).m_mapAssetId = [("GLD", "675f7911")] ∧
      (exampleAssets.foldl Provider.addAsset exampleProvider).cout =
        ["asset: GLD already exists with 675f7911"] :=
  ⟨(C11_directory_idempotent.2.2.1 exampleProvider
      ⟨"675f7911", "us_equity", "ARCA", "GLD", true, true, true⟩
      ⟨"0000aaaa", "us_equity", "ARCA", "GLD", true, true, true⟩ rfl rfl).1, by decide⟩

/-- C12. A failed asset-directory fetch leaves the directory in its pre-call state: when
the request status is false, or the body fails to parse as JSON, the response handler
leaves `m_mapAssetId` as it was (empty if it was empty), issues no further request, and
writes one line to the log. -/
theorem C12_failed_fetch (jecFailed : String → Bool) (Decode : String → List AssetMessage)
    (p : Provider) (bStatus : Bool) (message : String)
    (h : bStatus = false ∨ jecFailed message = true) :
    (Provider.OnAssets jecFailed Decode p bStatus message).m_mapAssetId = p.m_mapAssetId ∧
    (p.m_mapAssetId = [] →
      (Provider.OnAssets jecFailed Decode p bStatus message).m_mapAssetId = []) ∧
    (Provider.OnAssets jecFailed Decode p bStatus message).requests = p.requests ∧
    ∃ line, (Provider.OnAssets jecFailed Decode p bStatus message).cout = p.cout ++ [line] := by
  have e : (Provider.OnAssets jecFailed Decode p bStatus message).m_mapAssetId = p.m_mapAssetId ∧
      (Provider.OnAssets jecFailed Decode p bStatus message).requests = p.requests ∧
      ∃ line, (Provider.OnAssets jecFailed Decode p bStatus message).cout = p.cout ++ [line] := by
    cases bStatus with
    | false => exact ⟨rfl, rfl, _, rfl⟩
    | true =>
      rcases h with h | h
      · cases h
      · simp [Provider.OnAssets, h]
  exact ⟨e.1, fun h0 => e.1.trans h0, e.2.1, e.2.2⟩

/-- Witness of C12: a failed request on the example provider, whose directory is
empty. -/
theorem C12_failed_fetch_witness :
    (Provider.OnAssets (fun _ => false) (fun _ => exampleAssets) exampleProvider false
      "timeout").m_mapAssetId = [] :=
  (C12_failed_fetch (fun _ => false) (fun _ => exampleAssets) exampleProvider false "timeout"
    (Or.inl rfl)).2.1 rfl

/-! ### The order request -/

theorem request_limit (ndebug : Bool) (trd : TableRowDef) (hs : trd.eOrderSide = .Buy)
    (ht : trd.eOrderType = .Limit) :
    Provider.request ndebug trd = .ok
      [("symbol", .string trd.idInstrument), ("qty", .string (toString trd.nOrderQuantity)),
       ("notional", .null), ("side", .string "buy"), ("type", .string "limit"),
       ("limit_price", .number trd.dblPrice1), ("time_in_force", .string "day"),
       ("order_class", .string "simple")] := by
  simp [Provider.request, hs, ht, JObject.assign]

/-! ### Decimal strings -/

theorem digitChar_val (k : Nat) (hk : k < 10) :
    (Nat.digitChar k).toNat - '0'.toNat = k ∧ (Nat.digitChar k).isDigit = true := by
  interval_cases k <;> decide

theorem foldl_toDigitsCore (fuel : Nat) : ∀ (n : Nat) (ds : List Char) (acc : Nat), n < fuel →
    (Nat.toDigitsCore 10 fuel n ds).foldl (fun a c => a * 10 + (c.toNat - '0'.toNat)) acc =
      ds.foldl (fun a c => a * 10 + (c.toNat - '0'.toNat))
        ((Nat.toDigitsCore 10 fuel n []).foldl (fun a c => a * 10 + (c.toNat - '0'.toNat)) acc) := by
  induction fuel with
  | zero => intro n ds acc h; omega
  | succ fuel ih =>
    intro n ds acc h
    simp only [Nat.toDigitsCore]
    by_cases h0 : n / 10 = 0
    · simp [h0]
    · simp only [h0, if_false]
      have hlt : n / 10 < fuel := by omega
      rw [ih (n / 10) (Nat.digitChar (n % 10) :: ds) acc hlt,
        ih (n / 10) [Nat.digitChar (n % 10)] acc hlt]
      simp

theorem value_toDigitsCore (fuel : Nat) : ∀ n : Nat, n < fuel →
    (Nat.toDigitsCore 10 fuel n []).foldl (fun a c => a * 10 + (c.toNat - '0'.toNat)) 0 = n := by
  induction fuel with
  | zero => intro n h; omega
  | succ fuel ih =>
    intro n h
    have hd := (digitChar_val (n % 10) (Nat.mod_lt n (by decide))).1
    simp only [Nat.toDigitsCore]
    by_cases h0 : n / 10 = 0
    · simp only [h0, if_true, List.foldl]
      rw [hd]
      omega
    · simp only [h0, if_false]
      have hlt : n / 10 < fuel := by omega
      rw [foldl_toDigitsCore fuel (n / 10) [Nat.digitChar (n % 10)] 0 hlt, ih (n / 10) hlt]
      simp only [List.foldl]
      rw [hd]
      omega

theorem isDigit_toDigitsCore (fuel : Nat) : ∀ (n : Nat) (ds : List Char),
    (∀ c ∈ ds, c.isDigit = true) → ∀ c ∈ Nat.toDigitsCore 10 fuel n ds, c.isDigit = true := by
  induction fuel with
  | zero => intro n ds h; simpa [Nat.toDigitsCore] using h
  | succ fuel ih =>
    intro n ds h
    have hd := (digitChar_val (n % 10) (Nat.mod_lt n (by decide))).2
    have hds : ∀ c ∈ Nat.digitChar (n % 10) :: ds, c.isDigit = true := by
      intro c hc
      rcases List.mem_cons.1 hc with hc | hc
      · rw [hc]; exact hd
      · exact h c hc
    simp only [Nat.toDigitsCore]
    by_cases h0 : n / 10 = 0
    · simp only [h0, if_true]; exact hds
    · simp only [h0, if_false]; exact ih (n / 10) _ hds

theorem toDigitsCore_ne_nil (fuel : Nat) : ∀ (n : Nat) (ds : List Char), ds ≠ [] →
    Nat.toDigitsCore 10 fuel n ds ≠ [] := by
  induction fuel with
  | zero => intro n ds h; simpa [Nat.toDigitsCore] using h
  | succ fuel ih =>
    intro n ds _
    simp only [Nat.toDigitsCore]
    by_cases h0 : n / 10 = 0
    · simp [h0]
    · simp only [h0, if_false]; exact ih (n / 10) _ (by simp)

theorem toDigits_ne_nil (n : Nat) : Nat.toDigits 10 n ≠ [] := by
  simp only [Nat.toDigits, Nat.toDigitsCore]
  by_cases h0 : n / 10 = 0
  · simp [h0]
  · simp only [h0, if_false]; exact toDigitsCore_ne_nil n (n / 10) _ (by simp)

/-- The decimal string of a natural number parses back to the number. -/
theorem toNat?_toString (n : Nat) : (toString n).toNat? = some n := by
  have hs : toString n = String.mk (Nat.toDigits 10 n) := rfl
  have hne : (toString n).isEmpty = false := by
    rw [hs]
    cases h : (String.mk (Nat.toDigits 10 n)).isEmpty
    · rfl
    · have := (String.isEmpty_iff _).1 h
      exact absurd (congrArg String.data this) (toDigits_ne_nil n)
  have hall : (toString n).all (fun c => c.isDigit) = true := by
    rw [String.all_eq, hs]
    exact List.all_eq_true.2 (isDigit_toDigitsCore (n + 1) n [] (by simp))
  simp only [String.toNat?, String.isNat, hne, hall, Bool.not_false, Bool.and_self, if_true]
  rw [String.foldl_eq, hs]
  exact congrArg some (value_toDigitsCore (n + 1) n (Nat.lt_succ_self n))


/-! ### Order encoding -/

/-- C13. Order encoding in `Provider::PlaceOrder`, for side Buy or Sell and type Market,
Limit, Stop or StopLimit: the request is built in both build modes; "side" is "buy" for
Buy and "sell" for Sell; "type" is "market", "limit", "stop", "stop_limit" respectively;
"limit_price" is a member exactly for Limit and StopLimit, "stop_price" exactly for Stop
and StopLimit. -/
theorem C13_order_encoding (ndebug : Bool) (trd : TableRowDef)
    (hs : trd.eOrderSide = .Buy ∨ trd.eOrderSide = .Sell)
    (ht : trd.eOrderType = .Market ∨ trd.eOrderType = .Limit ∨ trd.eOrderType = .Stop ∨
      trd.eOrderType = .StopLimit) :
    ∃ body, Provider.request ndebug trd = .ok body ∧
      (trd.eOrderSide = .Buy → body.find "side" = some (.string "buy")) ∧
      (trd.eOrderSide = .Sell → body.find "side" = some (.string "sell")) ∧
      (trd.eOrderType = .Market → body.find "type" = some (.string "market")) ∧
      (trd.eOrderType = .Limit → body.find "type" = some (.string "limit")) ∧
      (trd.eOrderType = .Stop → body.find "type" = some (.string "stop")) ∧
      (trd.eOrderType = .StopLimit → body.find "type" = some (.string "stop_limit")) ∧
      ((body.find "limit_price").isSome ↔
        trd.eOrderType = .Limit ∨ trd.eOrderType = .StopLimit) ∧
      ((body.find "stop_price").isSome ↔
        trd.eOrderType = .Stop ∨ trd.eOrderType = .StopLimit) := by
  rcases hs with hs | hs <;> rcases ht with ht | ht | ht | ht <;>
    simp [Provider.request, hs, ht, JObject.assign, JObject.find, List.lookup]

/-- Witness of C13: the limit BUY of the example. -/
theorem C13_order_encoding_witness :
    ∃ body, Provider.request false exampleLimitBuy = .ok body ∧
      body.find "side" = some (.string "buy") ∧ body.find "type" = some (.string "limit") ∧
      (body.find "limit_price").isSome = true ∧ (body.find "stop_price").isSome = false :=
  let ⟨body, h, hb, _, _, hl, _, _, hlp, hsp⟩ :=
    C13_order_encoding false exampleLimitBuy (Or.inl rfl) (Or.inr (Or.inl rfl))
  ⟨body, h, hb rfl, hl rfl, hlp.2 (Or.inl rfl), by
    cases hx : (body.find "stop_price").isSome
    · rfl
    · exact absurd (hsp.1 hx) (by decide)⟩

/-- C14. The body of a limit order. For side `s` (Buy or Sell), quantity `q`, limit price
`p` and instrument identifier `id`, whatever the second price, the request has exactly the
members "symbol" = `id`, "qty" = the decimal string of `q` (a JSON string, which parses
back to `q`), "notional" = null, "side" = "buy" or "sell", "type" = "limit",
"limit_price" = the number `p`, "time_in_force" = "day", "order_class" = "simple", in
this order, and no member "stop_price". -/
theorem C14_limit_order_body (ndebug : Bool) (s : OrderSide) (q : Nat) (p p2 : Dbl)
    (id : String) (hs : s = .Buy ∨ s = .Sell) :
    Provider.request ndebug
        { idInstrument := id, nOrderQuantity := q, eOrderSide := s, eOrderType := .Limit,
          dblPrice1 := p, dblPrice2 := p2 } =
      .ok [("symbol", .string id), ("qty", .string (toString q)), ("notional", .null),
           ("side", .string (if s = .Buy then "buy" else "sell")), ("type", .string "limit"),
           ("limit_price", .number p), ("time_in_force", .string "day"),
           ("order_class", .string "simple")] ∧
    (toString q).toNat? = some q ∧
    JObject.find
        [("symbol", .string id), ("qty", .string (toString q)), ("notional", .null),
         ("side", .string (if s = .Buy then "buy" else "sell")), ("type", .string "limit"),
         ("limit_price", .number p), ("time_in_force", .string "day"),
         ("order_class", .string "simple")] "stop_price" = none := by
  refine ⟨?_, toNat?_toString q, by simp [JObject.find, List.lookup]⟩
  rcases hs with hs | hs <;> subst hs <;> simp [Provider.request, JObject.assign]

/-- Witness of C14: BUY, `q = 100`, `p = 123.45`, identifier "ABCD-1234". -/
theorem C14_limit_order_body_witness :
    Provider.request false exampleLimitBuy =
      .ok [("symbol", .string "ABCD-1234"), ("qty", .string "100"), ("notional", .null),
           ("side", .string "buy"), ("type", .string "limit"),
           ("limit_price", .number (.fin 123.45)), ("time_in_force", .string "day"),
           ("order_class", .string "simple")] :=
  (C14_limit_order_body false .Buy 100 (.fin 123.45) (.fin 0) "ABCD-1234" (Or.inl rfl)).1

theorem request_symbol (ndebug : Bool) (trd : TableRowDef)
    (hs : trd.eOrderSide = .Buy ∨ trd.eOrderSide = .Sell)
    (ht : trd.eOrderType = .Market ∨ trd.eOrderType = .Limit ∨ trd.eOrderType = .Stop ∨
      trd.eOrderType = .StopLimit) :
    ∃ body, Provider.request ndebug trd = .ok body ∧
      body.find "symbol" = some (.string trd.idInstrument) := by
  rcases hs with hs | hs <;> rcases ht with ht | ht | ht | ht <;>
    simp [Provider.request, hs, ht, JObject.assign, JObject.find, List.lookup]

/-- Counterexample to C15 as stated: with GLD resolved to an identifier in the directory,
the request of an order on GLD carries "GLD" itself in "symbol", not the stored
identifier; and an order on XYZ, which the directory does not hold, is placed all the
same: `PlaceOrder` returns normally and hands one POST `/v2/orders` to a session. -/
theorem C15_counterexample :
    (List.lookup "GLD" exampleProviderGLD.m_mapAssetId =
        some "675f7911-9aca-418a-acd5-07cfacb9d32b" ∧
      ∃ p', Provider.PlaceOrder false exampleSerialize exampleProviderGLD
          (exampleMarketBuy "GLD") = .ok p' ∧
        Provider.request false (exampleMarketBuy "GLD") =
          .ok [("symbol", .string "GLD"), ("qty", .string "100"), ("notional", .null),
               ("side", .string "buy"), ("type", .string "market"),
               ("time_in_force", .string "day"), ("order_class", .string "simple")]) ∧
    (List.lookup "XYZ" exampleProviderGLD.m_mapAssetId = none ∧
      ∃ p', Provider.PlaceOrder false exampleSerialize exampleProviderGLD
          (exampleMarketBuy "XYZ") = .ok p' ∧
        p'.requests.map (fun r => (r.verb, r.sTarget)) = [("POST", "/v2/orders")]) := by
  have hreq : ∀ sym : String, Provider.request false (exampleMarketBuy sym) =
      .ok [("symbol", .string sym), ("qty", .string "100"), ("notional", .null),
           ("side", .string "buy"), ("type", .string "market"),
           ("time_in_force", .string "day"), ("order_class", .string "simple")] := by
    intro sym
    simp [Provider.request, exampleMarketBuy, JObject.assign]
    decide
  have hplace : ∀ sym : String, ∃ body,
      Provider.PlaceOrder false exampleSerialize exampleProviderGLD (exampleMarketBuy sym) =
        .ok { exampleProviderGLD with
              cout := ["order '" ++ exampleSerialize body ++ "'"]
              requests :=
                [{ verb := "POST", sHost := "paper-api.alpaca.markets", sPort := "443",
                   sAlpacaKeyId := "key-id", sAlpacaSecret := "secret",
                   sTarget := "/v2/orders", sBody := exampleSerialize body }] } := by
    intro sym
    refine ⟨[("symbol", .string sym), ("qty", .string "100"), ("notional", .null),
      ("side", .string "buy"), ("type", .string "market"), ("time_in_force", .string "day"),
      ("order_class", .string "simple")], ?_⟩
    simp only [Provider.PlaceOrder, hreq]
    rfl
  obtain ⟨_, h1⟩ := hplace "GLD"
  obtain ⟨_, h2⟩ := hplace "XYZ"
  exact ⟨⟨by decide, _, h1, hreq "GLD"⟩, by decide, _, h2, rfl⟩

/-- C15, amended. `Provider::PlaceOrder` does not consult the asset directory: for every
order with side Buy or Sell and type Market, Limit, Stop or StopLimit, whether or not its
symbol is in the directory, the "symbol" member of the request is the instrument
identifier of the order itself, `PlaceOrder` returns normally having handed exactly one
POST `/v2/orders` with that body to a session, the directory is left as it was, and any
other directory gives the same request and the same log. -/
theorem C15_symbol_is_order_instrument (ndebug : Bool) (serialize : JObject → String)
    (p : Provider) (trd : TableRowDef)
    (hs : trd.eOrderSide = .Buy ∨ trd.eOrderSide = .Sell)
    (ht : trd.eOrderType = .Market ∨ trd.eOrderType = .Limit ∨ trd.eOrderType = .Stop ∨
      trd.eOrderType = .StopLimit) :
    ∃ body p', Provider.request ndebug trd = .ok body ∧
      body.find "symbol" = some (.string trd.idInstrument) ∧
      Provider.PlaceOrder ndebug serialize p trd = .ok p' ∧
      p'.requests = p.requests ++
        [{ verb := "POST", sHost := p.m_sHost, sPort := p.m_sPort,
           sAlpacaKeyId := p.m_sAlpacaKeyId, sAlpacaSecret := p.m_sAlpacaSecret,
           sTarget := "/v2/orders", sBody := serialize body }] ∧
      p'.m_mapAssetId = p.m_mapAssetId ∧
      ∀ m : mapAssetId_t,
        Provider.PlaceOrder ndebug serialize { p with m_mapAssetId := m } trd =
          .ok { p' with m_mapAssetId := m } := by
  obtain ⟨body, hb, hsym⟩ := request_symbol ndebug trd hs ht
  have hplace : ∀ q : Provider, Provider.PlaceOrder ndebug serialize q trd =
      .ok { q with
            cout := q.cout ++ ["order '" ++ serialize body ++ "'"]
            requests := q.requests ++
              [{ verb := "POST", sHost := q.m_sHost, sPort := q.m_sPort,
                 sAlpacaKeyId := q.m_sAlpacaKeyId, sAlpacaSecret := q.m_sAlpacaSecret,
                 sTarget := "/v2/orders", sBody := serialize body }] } := by
    intro q
    simp only [Provider.PlaceOrder, hb]
  exact ⟨body, _, hb, hsym, hplace p, rfl, rfl, fun m => hplace _⟩

/-- Witness of C15 (amended): the order on XYZ with GLD alone in the directory. -/
theorem C15_symbol_is_order_instrument_witness :
    ∃ body, Provider.request false (exampleMarketBuy "XYZ") = .ok body ∧
      body.find "symbol" = some (.string "XYZ") :=
  let ⟨body, _, h1, h2, _⟩ := C15_symbol_is_order_instrument false exampleSerialize
    exampleProviderGLD (exampleMarketBuy "XYZ") (Or.inl rfl) (Or.inl rfl)
  ⟨body, h1, h2⟩

/-! ### What is written to the log -/

theorem addAsset_log_congr (p q : Provider) (a : AssetMessage)
    (hm : p.m_mapAssetId = q.m_mapAssetId) (hc : p.cout = q.cout) :
    (p.addAsset a).m_mapAssetId = (q.addAsset a).m_mapAssetId ∧
      (p.addAsset a).cout = (q.addAsset a).cout := by
  cases hv : List.lookup a.symbol p.m_mapAssetId with
  | some id =>
    rw [addAsset_present p a id hv, addAsset_present q a id (by rw [← hm]; exact hv)]
    exact ⟨hm, by show p.cout ++ _ = q.cout ++ _; rw [hc]⟩
  | none =>
    rw [addAsset_absent p a hv, addAsset_absent q a (by rw [← hm]; exact hv)]
    exact ⟨by show p.m_mapAssetId ++ _ = q.m_mapAssetId ++ _; rw [hm], hc⟩

theorem foldl_log_congr (l : List AssetMessage) (p q : Provider)
    (hm : p.m_mapAssetId = q.m_mapAssetId) (hc : p.cout = q.cout) :
    (l.foldl Provider.addAsset p).m_mapAssetId = (l.foldl Provider.addAsset q).m_mapAssetId ∧
      (l.foldl Provider.addAsset p).cout = (l.foldl Provider.addAsset q).cout := by
  induction l generalizing p q with
  | nil => exact ⟨hm, hc⟩
  | cons a l ih =>
    obtain ⟨h1, h2⟩ := addAsset_log_congr p q a hm hc
    exact ih (p.addAsset a) (q.addAsset a) h1 h2

theorem OnAssets_log_congr (jecFailed : String → Bool) (Decode : String → List AssetMessage)
    (p q : Provider) (bStatus : Bool) (message : String)
    (hm : p.m_mapAssetId = q.m_mapAssetId) (hc : p.cout = q.cout) :
    (Provider.OnAssets jecFailed Decode p bStatus message).cout =
      (Provider.OnAssets jecFailed Decode q bStatus message).cout := by
  cases bStatus with
  | false => show p.cout ++ _ = q.cout ++ _; rw [hc]
  | true =>
    cases hj : jecFailed message with
    | true => simp [Provider.OnAssets, hj, hc]
    | false =>
      simp only [Provider.OnAssets, hj, if_true, Bool.false_eq_true, if_false]
      rw [(foldl_log_congr (Decode message) p q hm hc).2]

theorem request_keys (ndebug : Bool) (trd : TableRowDef) (body : JObject)
    (h : Provider.request ndebug trd = .ok body) : ∀ kv ∈ body, kv.1 ∈ requestKeys := by
  obtain ⟨id, q, side, type, p1, p2⟩ := trd
  cases ndebug <;> cases side <;> cases type <;>
    simp [Provider.request, JObject.assign] at h <;> subst h <;> simp [requestKeys]

/-- C18. Credentials are not logged. Replacing the key id and the secret of the provider
by any other pair changes nothing of what `Provider::PlaceOrder`, its response handler and
the response handler of `Provider::Connect` write to the log; the line `PlaceOrder` logs is
"order '" followed by the serialized request and "'", where the request is built from the
row of the order alone and has no member other than "symbol", "qty", "notional", "side",
"type", "limit_price", "stop_price", "time_in_force", "order_class". -/
theorem C18_credentials_not_logged (ndebug : Bool) (serialize : JObject → String)
    (jecFailed : String → Bool) (Decode : String → List AssetMessage) (p : Provider)
    (key secret : String) (trd : TableRowDef) (bStatus bResult : Bool) (message s : String) :
    Outcome.map Provider.cout
        (Provider.PlaceOrder ndebug serialize
          { p with m_sAlpacaKeyId := key, m_sAlpacaSecret := secret } trd) =
      Outcome.map Provider.cout (Provider.PlaceOrder ndebug serialize p trd) ∧
    (Provider.OnAssets jecFailed Decode
        { p with m_sAlpacaKeyId := key, m_sAlpacaSecret := secret } bStatus message).cout =
      (Provider.OnAssets jecFailed Decode p bStatus message).cout ∧
    (Provider.OnPlaceOrder
        { p with m_sAlpacaKeyId := key, m_sAlpacaSecret := secret } bResult s).cout =
      (Provider.OnPlaceOrder p bResult s).cout ∧
    (∀ body, Provider.request ndebug trd = .ok body →
      Outcome.map Provider.cout (Provider.PlaceOrder ndebug serialize p trd) =
        .ok (p.cout ++ ["order '" ++ serialize body ++ "'"]) ∧
      ∀ kv ∈ body, kv.1 ∈ requestKeys) := by
  refine ⟨?_, OnAssets_log_congr jecFailed Decode _ p bStatus message rfl rfl, ?_,
    fun body hb => ⟨?_, request_keys ndebug trd body hb⟩⟩
  · cases hr : Provider.request ndebug trd <;> simp [Provider.PlaceOrder, hr, Outcome.map]
  · cases bResult <;> rfl
  · simp [Provider.PlaceOrder, hb, Outcome.map]

/-- Witness of C18: the example order placed with two different credential pairs leaves
the same log. -/
theorem C18_credentials_not_logged_witness :
    Outcome.map Provider.cout
        (Provider.PlaceOrder false exampleSerialize
          { exampleProvider with m_sAlpacaKeyId := "other-key", m_sAlpacaSecret := "other" }
          exampleLimitBuy) =
      Outcome.map Provider.cout
        (Provider.PlaceOrder false exampleSerialize exampleProvider exampleLimitBuy) :=
  (C18_credentials_not_logged false exampleSerialize (fun _ => false) (fun _ => [])
    exampleProvider "other-key" "other" exampleLimitBuy true true "" "").1

/-! ### Invalid quotes -/

theorem Dbl.le_false_of_lt (a b : Dbl) (h : a < b) : Dbl.le b a = false := by
  change Dbl.lt a b = true at h
  cases a <;> cases b <;> simp_all [Dbl.lt, Dbl.le]

theorem Dbl.lt_false_of_le (a b : Dbl) (h : a ≤ b) : Dbl.lt b a = false := by
  change Dbl.le a b = true at h
  cases a <;> cases b <;> simp_all [Dbl.lt, Dbl.le]

theorem Quote.not_valid (q : Quote)
    (h : q.Ask < q.Bid ∨ q.Bid ≤ .fin 0 ∨ q.Ask ≤ .fin 0) : q.IsValid = false := by
  have e1 : ∀ a b : Dbl, decide (a > b) = Dbl.lt b a := fun a b => by
    show decide (Dbl.lt b a = true) = _
    simp
  have e2 : ∀ a b : Dbl, decide (a ≥ b) = Dbl.le b a := fun a b => by
    show decide (Dbl.le b a = true) = _
    simp
  simp only [Quote.IsValid, e1, e2]
  rcases h with h | h | h
  · rw [Dbl.le_false_of_lt _ _ h]; simp
  · rw [Dbl.lt_false_of_le _ _ h]; simp
  · rw [Dbl.lt_false_of_le _ _ h]; simp

theorem HandleQuote_invalid {β : Type} (env : QuoteEnv β) (quote : Quote) (f : Feed β)
    (h : quote.IsValid = false) : HandleQuote env quote f = f := by
  simp [HandleQuote, h]

/-- C16. `Strategy::HandleQuote` discards invalid quotes without any state change. A quote
with ask < bid, or bid <= 0, or ask <= 0 is not valid, and on a quote that is not valid
(also one with a NaN side) the handler returns the strategy as it was: the midpoint, the
three moving-average prices, the bid and ask series, the bar factory, the profit/loss
series and the trade state are unchanged and no bar is passed to `TimeTick`. -/
theorem C16_invalid_quote_discarded {β : Type} (env : QuoteEnv β) (quote : Quote) (f : Feed β)
    (h : quote.Ask < quote.Bid ∨ quote.Bid ≤ .fin 0 ∨ quote.Ask ≤ .fin 0) :
    quote.IsValid = false ∧
    HandleQuote env quote f = f ∧
    (HandleQuote env quote f).strategy.m_dblMid = f.strategy.m_dblMid ∧
    (HandleQuote env quote f).strategy.m_vMA = f.strategy.m_vMA ∧
    (HandleQuote env quote f).m_ceQuoteAsk = f.m_ceQuoteAsk ∧
    (HandleQuote env quote f).m_ceQuoteBid = f.m_ceQuoteBid ∧
    (HandleQuote env quote f).m_bfQuotes01Sec = f.m_bfQuotes01Sec ∧
    (HandleQuote env quote f).ticks = f.ticks ∧
    (∀ q : Quote, q.IsValid = false → HandleQuote env q f = f) := by
  have hv := Quote.not_valid quote h
  have e := HandleQuote_invalid env quote f hv
  rw [e]
  exact ⟨hv, rfl, rfl, rfl, rfl, rfl, rfl, rfl, fun q hq => HandleQuote_invalid env q f hq⟩

/-- Witness of C16: a crossed quote (ask 10.2, bid 10.3) in an environment where every
valid quote would complete a bar and run the tick handler. -/
theorem C16_invalid_quote_discarded_witness :
    exampleCrossedQuote.Ask < exampleCrossedQuote.Bid ∧
      (HandleQuote exampleEnv exampleCrossedQuote exampleFeed).ticks = [] ∧
      (HandleQuote exampleEnv exampleCrossedQuote exampleFeed).strategy = exampleSearch :=
  have h : exampleCrossedQuote.Ask < exampleCrossedQuote.Bid := by
    simp only [exampleCrossedQuote, Dbl.fin_lt_fin]
    norm_num
  have e := (C16_invalid_quote_discarded exampleEnv exampleCrossedQuote exampleFeed
    (Or.inl h)).2.1
  ⟨h, by rw [e]; rfl, by rw [e]; rfl⟩

/-! ### Construction -/

/-- Counterexample to C17 as stated: in a build with `NDEBUG` the constructor succeeds on
a period width of 0 and three moving-average periods of 0. -/
theorem C17_counterexample :
    Strategy.ctor true ⟨0, 0, 0, 0⟩ =
      .ok { m_stateTrade := .Init, m_nPeriodWidth := some 0, m_vMAPeriods := [0, 0, 0] } := by
  decide

/-- C17, amended. When assertions are compiled in, constructing a `Strategy` succeeds if
and only if `nPeriodWidth > 0` and each of `nMA1Periods`, `nMA2Periods`, `nMA3Periods` is
`> 0`, and it aborts inside the constructor otherwise; when `NDEBUG` is defined it
succeeds for every value of the options. On success, in both builds, the strategy is in
`Init`, holds the period width, and holds exactly the three periods in the order ma1,
ma2, ma3. -/
theorem C17_construction (options : Options) :
    ((∃ s, Strategy.ctor false options = .ok s) ↔
      0 < options.nPeriodWidth ∧ 0 < options.nMA1Periods ∧ 0 < options.nMA2Periods ∧
        0 < options.nMA3Periods) ∧
    (¬ (0 < options.nPeriodWidth ∧ 0 < options.nMA1Periods ∧ 0 < options.nMA2Periods ∧
        0 < options.nMA3Periods) → ∃ s, Strategy.ctor false options = .abort s) ∧
    (∃ s, Strategy.ctor true options = .ok s) ∧
    (∀ ndebug s, Strategy.ctor ndebug options = .ok s →
      s.m_stateTrade = .Init ∧ s.m_nPeriodWidth = some options.nPeriodWidth ∧
      s.m_vMAPeriods = [options.nMA1Periods, options.nMA2Periods, options.nMA3Periods]) := by
  obtain ⟨w, p1, p2, p3⟩ := options
  refine ⟨?_, ?_, ?_, ?_⟩
  · by_cases hw : 0 < w <;> by_cases h1 : 0 < p1 <;> by_cases h2 : 0 < p2 <;>
      by_cases h3 : 0 < p3 <;> simp [Strategy.ctor, hw, h1, h2, h3]
  · intro h
    by_cases hw : 0 < w <;> by_cases h1 : 0 < p1 <;> by_cases h2 : 0 < p2 <;>
      by_cases h3 : 0 < p3 <;> simp [Strategy.ctor, hw, h1, h2, h3] at h ⊢
  · simp [Strategy.ctor]
  · intro ndebug s h
    cases ndebug <;> by_cases hw : 0 < w <;> by_cases h1 : 0 < p1 <;> by_cases h2 : 0 < p2 <;>
      by_cases h3 : 0 < p3 <;> simp [Strategy.ctor, hw, h1, h2, h3] at h <;>
      subst h <;> exact ⟨rfl, rfl, rfl⟩

/-- Witness of C17 (amended): a build with assertions rejects a period width of 0 and
accepts the options 10, 8, 13, 21. -/
theorem C17_construction_witness :
    (∃ s, Strategy.ctor false ⟨0, 8, 13, 21⟩ = .abort s) ∧
      ∃ s, Strategy.ctor false ⟨10, 8, 13, 21⟩ = .ok s :=
  ⟨(C17_construction ⟨0, 8, 13, 21⟩).2.1 (by decide),
    (C17_construction ⟨10, 8, 13, 21⟩).1.2 (by decide)⟩

/-! ### The order of the statements in a submitting branch -/

theorem HandleRHTradingWith_search_long (place : Nat → Strategy → Outcome Strategy) (bar : Bar)
    (s : Strategy) (hs : s.m_stateTrade = .Search)
    (h : s.m_vMA.ma1 > s.m_vMA.ma3 ∧ s.m_vMA.ma2 > s.m_vMA.ma3 ∧ s.m_dblMid > s.m_vMA.ma1) :
    HandleRHTradingWith place bar s = place s.orders.length
      { s with m_stateTrade := .LongSubmitted,
               m_pOrder := some s.orders.length,
               m_ceLongEntry := AddLabel s.m_ceLongEntry bar.DateTime s.m_dblMid "Long Submit",
               orders := s.orders ++ [Order.submitted .Buy],
               trace := s.trace ++ preTrace s.orders.length .Buy } := by
  simp only [HandleRHTradingWith, hs, if_pos h]
  simp [Strategy.ConstructOrder, Strategy.Add, Strategy.updateOrder, Delegate.Add,
    Order.submitted, preTrace]

theorem HandleRHTradingWith_search_short (place : Nat → Strategy → Outcome Strategy) (bar : Bar)
    (s : Strategy) (hs : s.m_stateTrade = .Search)
    (hl : ¬ (s.m_vMA.ma1 > s.m_vMA.ma3 ∧ s.m_vMA.ma2 > s.m_vMA.ma3 ∧ s.m_dblMid > s.m_vMA.ma1))
    (h : s.m_vMA.ma1 < s.m_vMA.ma3 ∧ s.m_vMA.ma2 < s.m_vMA.ma3 ∧ s.m_dblMid < s.m_vMA.ma1) :
    HandleRHTradingWith place bar s = place s.orders.length
      { s with m_stateTrade := .ShortSubmitted,
               m_pOrder := some s.orders.length,
               m_ceShortEntry := AddLabel s.m_ceShortEntry bar.DateTime s.m_dblMid "Short Submit",
               orders := s.orders ++ [Order.submitted .Sell],
               trace := s.trace ++ preTrace s.orders.length .Sell } := by
  simp only [HandleRHTradingWith, hs, if_neg hl, if_pos h]
  simp [Strategy.ConstructOrder, Strategy.Add, Strategy.updateOrder, Delegate.Add,
    Order.submitted, preTrace]

theorem HandleRHTradingWith_longExit (place : Nat → Strategy → Outcome Strategy) (bar : Bar)
    (s : Strategy) (hs : s.m_stateTrade = .LongExit) (h : s.m_vMA.ma1 < s.m_vMA.ma3) :
    HandleRHTradingWith place bar s = place s.orders.length
      { s with m_stateTrade := .ExitSubmitted,
               m_pOrder := some s.orders.length,
               m_ceLongExit := AddLabel s.m_ceLongExit bar.DateTime s.m_dblMid "Long Exit",
               orders := s.orders ++ [Order.submitted .Sell],
               trace := s.trace ++ preTrace s.orders.length .Sell } := by
  simp only [HandleRHTradingWith, hs, if_pos h]
  simp [Strategy.ConstructOrder, Strategy.Add, Strategy.updateOrder, Delegate.Add,
    Order.submitted, preTrace]

theorem HandleRHTradingWith_shortExit (place : Nat → Strategy → Outcome Strategy) (bar : Bar)
    (s : Strategy) (hs : s.m_stateTrade = .ShortExit) (h : s.m_vMA.ma1 > s.m_vMA.ma3) :
    HandleRHTradingWith place bar s = place s.orders.length
      { s with m_stateTrade := .ExitSubmitted,
               m_pOrder := some s.orders.length,
               m_ceShortExit := AddLabel s.m_ceShortExit bar.DateTime s.m_dblMid "Short Exit",
               orders := s.orders ++ [Order.submitted .Buy],
               trace := s.trace ++ preTrace s.orders.length .Buy } := by
  simp only [HandleRHTradingWith, hs, if_pos h]
  simp [Strategy.ConstructOrder, Strategy.Add, Strategy.updateOrder, Delegate.Add,
    Order.submitted, preTrace]

/-- With a `PlaceOrder` that does not call back, the parameterised tick handler is the
tick handler. -/
theorem HandleRHTradingWith_placeLater (bar : Bar) (s : Strategy) :
    HandleRHTradingWith placeLater bar s = .ok (HandleRHTrading bar s) := by
  unfold HandleRHTradingWith HandleRHTrading
  cases s.m_stateTrade <;> simp only [placeLater] <;> split_ifs <;> rfl

/-- The synchronous fill on the state a submitting branch has reached when it calls
`PlaceOrder`. -/
theorem placeAndFill_submitted (ndebug : Bool) (dt : ptime) (s1 : Strategy) (id : Nat)
    (side : OrderSide) (hp : s1.m_pOrder = some id)
    (ho : s1.orders[id]? = some (Order.submitted side))
    (hst : s1.m_stateTrade = .LongSubmitted ∨ s1.m_stateTrade = .ShortSubmitted ∨
      s1.m_stateTrade = .ExitSubmitted) :
    ∃ s2, placeAndFill ndebug dt id s1 = .ok s2 ∧ s2.m_pOrder = none ∧
      (s1.m_stateTrade = .LongSubmitted → s2.m_stateTrade = .LongExit) ∧
      (s1.m_stateTrade = .ShortSubmitted → s2.m_stateTrade = .ShortExit) ∧
      (s1.m_stateTrade = .ExitSubmitted → s2.m_stateTrade = .Search) ∧
      s2.trace = s1.trace ++ [.PlaceOrder id (Order.submitted side)] ++ removeTrace id ++
        [.reset id] := by
  have e : s1.PlaceOrder id =
      { s1 with trace := s1.trace ++ [.PlaceOrder id (Order.submitted side)] } := by
    simp [Strategy.PlaceOrder, ho]
  have hmem : Delegate.HandleOrderFilled ∈ (Order.submitted side).OnOrderFilled := by
    simp [Order.submitted]
  simp only [placeAndFill, e, ho, if_pos hmem]
  rw [HandleOrderFilled_eq ndebug _
    { s1 with trace := s1.trace ++ [.PlaceOrder id (Order.submitted side)] } id
    (Order.submitted side) hp ho]
  rcases hst with h | h | h <;> simp only [h] <;>
    exact ⟨_, rfl, rfl, fun h' => (by first | rfl | cases h'),
      fun h' => (by first | rfl | cases h'), fun h' => (by first | rfl | cases h'), rfl⟩

theorem placed_preTrace (id : Nat) (side : OrderSide) : placed (preTrace id side) = [] := rfl

/-- What holds of the state a submitting branch has reached when it calls `PlaceOrder`,
and what a synchronous fill then does. -/
theorem sync_branch (ndebug : Bool) (dt : ptime) (s s1 : Strategy) (side : OrderSide)
    (hp : s1.m_pOrder = some s.orders.length)
    (ho : s1.orders = s.orders ++ [Order.submitted side])
    (ht : s1.trace = s.trace ++ preTrace s.orders.length side)
    (hst : s1.m_stateTrade = .LongSubmitted ∨ s1.m_stateTrade = .ShortSubmitted ∨
      s1.m_stateTrade = .ExitSubmitted) :
    (∃ o, s1.orders[s.orders.length]? = some o ∧ o.eOrderType = .Market ∧
      o.eOrderSide = side ∧ Delegate.HandleOrderCancelled ∈ o.OnOrderCancelled ∧
      Delegate.HandleOrderFilled ∈ o.OnOrderFilled) ∧
    placed s1.trace = placed s.trace ∧
    ∃ s2, placeAndFill ndebug dt s.orders.length s1 = .ok s2 ∧ s2.m_pOrder = none ∧
      (s1.m_stateTrade = .LongSubmitted → s2.m_stateTrade = .LongExit) ∧
      (s1.m_stateTrade = .ShortSubmitted → s2.m_stateTrade = .ShortExit) ∧
      (s1.m_stateTrade = .ExitSubmitted → s2.m_stateTrade = .Search) := by
  have hget : s1.orders[s.orders.length]? = some (Order.submitted side) := by
    rw [ho]; simp
  refine ⟨⟨Order.submitted side, hget, rfl, rfl, ?_, ?_⟩, ?_, ?_⟩
  · simp [Order.submitted]
  · simp [Order.submitted]
  · rw [ht, placed_append, placed_preTrace, List.append_nil]
  · obtain ⟨s2, h, hn, a, b, c, _⟩ :=
      placeAndFill_submitted ndebug dt s1 s.orders.length side hp hget hst
    exact ⟨s2, h, hn, a, b, c⟩

/-- C21. Submission ordering inside a tick. In each of the four submitting branches of
`Strategy::HandleRHTrading`, whatever `Position::PlaceOrder` does, the strategy it is
called on has the new order in `m_pOrder` with the cancel handler and the fill handler
registered on it, the trade state already set to the submitted state of the branch, and
the order not yet handed over; consequently a fill delivered from inside `PlaceOrder` is
handled in an expected state in both build modes: the tick returns normally in `LongExit`
(long entry), `ShortExit` (short entry) or `Search` (either exit), with the order
released. With a `PlaceOrder` that does not call back, this tick handler is
`HandleRHTrading`. -/
theorem C21_submission_order (ndebug : Bool) (dt : ptime) (bar : Bar) (s : Strategy) :
    HandleRHTradingWith placeLater bar s = .ok (HandleRHTrading bar s) ∧
    (s.m_stateTrade = .Search →
      s.m_vMA.ma1 > s.m_vMA.ma3 ∧ s.m_vMA.ma2 > s.m_vMA.ma3 ∧ s.m_dblMid > s.m_vMA.ma1 →
      ∃ s1, (∀ place, HandleRHTradingWith place bar s = place s.orders.length s1) ∧
        s1.m_stateTrade = .LongSubmitted ∧ s1.m_pOrder = some s.orders.length ∧
        (∃ o, s1.orders[s.orders.length]? = some o ∧ o.eOrderType = .Market ∧
          o.eOrderSide = .Buy ∧ Delegate.HandleOrderCancelled ∈ o.OnOrderCancelled ∧
          Delegate.HandleOrderFilled ∈ o.OnOrderFilled) ∧
        placed s1.trace = placed s.trace ∧
        ∃ s2, HandleRHTradingWith (placeAndFill ndebug dt) bar s = .ok s2 ∧
          s2.m_stateTrade = .LongExit ∧ s2.m_pOrder = none) ∧
    (s.m_stateTrade = .Search →
      ¬ (s.m_vMA.ma1 > s.m_vMA.ma3 ∧ s.m_vMA.ma2 > s.m_vMA.ma3 ∧ s.m_dblMid > s.m_vMA.ma1) →
      s.m_vMA.ma1 < s.m_vMA.ma3 ∧ s.m_vMA.ma2 < s.m_vMA.ma3 ∧ s.m_dblMid < s.m_vMA.ma1 →
      ∃ s1, (∀ place, HandleRHTradingWith place bar s = place s.orders.length s1) ∧
        s1.m_stateTrade = .ShortSubmitted ∧ s1.m_pOrder = some s.orders.length ∧
        (∃ o, s1.orders[s.orders.length]? = some o ∧ o.eOrderType = .Market ∧
          o.eOrderSide = .Sell ∧ Delegate.HandleOrderCancelled ∈ o.OnOrderCancelled ∧
          Delegate.HandleOrderFilled ∈ o.OnOrderFilled) ∧
        placed s1.trace = placed s.trace ∧
        ∃ s2, HandleRHTradingWith (placeAndFill ndebug dt) bar s = .ok s2 ∧
          s2.m_stateTrade = .ShortExit ∧ s2.m_pOrder = none) ∧
    (s.m_stateTrade = .LongExit → s.m_vMA.ma1 < s.m_vMA.ma3 →
      ∃ s1, (∀ place, HandleRHTradingWith place bar s = place s.orders.length s1) ∧
        s1.m_stateTrade = .ExitSubmitted ∧ s1.m_pOrder = some s.orders.length ∧
        (∃ o, s1.orders[s.orders.length]? = some o ∧ o.eOrderType = .Market ∧
          o.eOrderSide = .Sell ∧ Delegate.HandleOrderCancelled ∈ o.OnOrderCancelled ∧
          Delegate.HandleOrderFilled ∈ o.OnOrderFilled) ∧
        placed s1.trace = placed s.trace ∧
        ∃ s2, HandleRHTradingWith (placeAndFill ndebug dt) bar s = .ok s2 ∧
          s2.m_stateTrade = .Search ∧ s2.m_pOrder = none) ∧
    (s.m_stateTrade = .ShortExit → s.m_vMA.ma1 > s.m_vMA.ma3 →
      ∃ s1, (∀ place, HandleRHTradingWith place bar s = place s.orders.length s1) ∧
        s1.m_stateTrade = .ExitSubmitted ∧ s1.m_pOrder = some s.orders.length ∧
        (∃ o, s1.orders[s.orders.length]? = some o ∧ o.eOrderType = .Market ∧
          o.eOrderSide = .Buy ∧ Delegate.HandleOrderCancelled ∈ o.OnOrderCancelled ∧
          Delegate.HandleOrderFilled ∈ o.OnOrderFilled) ∧
        placed s1.trace = placed s.trace ∧
        ∃ s2, HandleRHTradingWith (placeAndFill ndebug dt) bar s = .ok s2 ∧
          s2.m_stateTrade = .Search ∧ s2.m_pOrder = none) := by
  refine ⟨HandleRHTradingWith_placeLater bar s, fun hs h => ?_, fun hs hl h => ?_,
    fun hs h => ?_, fun hs h => ?_⟩
  · have e := fun place => HandleRHTradingWith_search_long place bar s hs h
    obtain ⟨ho, hpl, s2, h2, hn, a, _, _⟩ :=
      sync_branch ndebug dt s
        ({ s with m_stateTrade := .LongSubmitted, m_pOrder := some s.orders.length,
                  m_ceLongEntry := AddLabel s.m_ceLongEntry bar.DateTime s.m_dblMid "Long Submit",
                  orders := s.orders ++ [Order.submitted .Buy],
                  trace := s.trace ++ preTrace s.orders.length .Buy } : Strategy)
        .Buy rfl rfl rfl (Or.inl rfl)
    exact ⟨_, e, rfl, rfl, ho, hpl, s2, by rw [e]; exact h2, a rfl, hn⟩
  · have e := fun place => HandleRHTradingWith_search_short place bar s hs hl h
    obtain ⟨ho, hpl, s2, h2, hn, _, b, _⟩ :=
      sync_branch ndebug dt s
        ({ s with m_stateTrade := .ShortSubmitted, m_pOrder := some s.orders.length,
                  m_ceShortEntry := AddLabel s.m_ceShortEntry bar.DateTime s.m_dblMid "Short Submit",
                  orders := s.orders ++ [Order.submitted .Sell],
                  trace := s.trace ++ preTrace s.orders.length .Sell } : Strategy)
        .Sell rfl rfl rfl (Or.inr (Or.inl rfl))
    exact ⟨_, e, rfl, rfl, ho, hpl, s2, by rw [e]; exact h2, b rfl, hn⟩
  · have e := fun place => HandleRHTradingWith_longExit place bar s hs h
    obtain ⟨ho, hpl, s2, h2, hn, _, _, c⟩ :=
      sync_branch ndebug dt s
        ({ s with m_stateTrade := .ExitSubmitted, m_pOrder := some s.orders.length,
                  m_ceLongExit := AddLabel s.m_ceLongExit bar.DateTime s.m_dblMid "Long Exit",
                  orders := s.orders ++ [Order.submitted .Sell],
                  trace := s.trace ++ preTrace s.orders.length .Sell } : Strategy)
        .Sell rfl rfl rfl (Or.inr (Or.inr rfl))
    exact ⟨_, e, rfl, rfl, ho, hpl, s2, by rw [e]; exact h2, c rfl, hn⟩
  · have e := fun place => HandleRHTradingWith_shortExit place bar s hs h
    obtain ⟨ho, hpl, s2, h2, hn, _, _, c⟩ :=
      sync_branch ndebug dt s
        ({ s with m_stateTrade := .ExitSubmitted, m_pOrder := some s.orders.length,
                  m_ceShortExit := AddLabel s.m_ceShortExit bar.DateTime s.m_dblMid "Short Exit",
                  orders := s.orders ++ [Order.submitted .Buy],
                  trace := s.trace ++ preTrace s.orders.length .Buy } : Strategy)
        .Buy rfl rfl rfl (Or.inr (Or.inr rfl))
    exact ⟨_, e, rfl, rfl, ho, hpl, s2, by rw [e]; exact h2, c rfl, hn⟩

/-- Witness of C21: the long entry of `exampleSearch` with a `PlaceOrder` that fills the
order before it returns ends the tick in `LongExit`. -/
theorem C21_submission_order_witness :
    exampleSearch.m_stateTrade = .Search ∧
      ∃ s2, HandleRHTradingWith (placeAndFill false 8) ⟨7⟩ exampleSearch = .ok s2 ∧
        s2.m_stateTrade = .LongExit ∧ s2.m_pOrder = none :=
  let ⟨_, _, _, _, _, _, s2, h, hst, hn⟩ :=
    (C21_submission_order false 8 ⟨7⟩ exampleSearch).2.1 rfl exampleSearch_long
  ⟨rfl, s2, h, hst, hn⟩

/-! ### Price slots of the order request -/

/-- C22. Price slots of the order encoder in `Provider::PlaceOrder`, for an order of side
Buy or Sell with first price `dblPrice1` and second price `dblPrice2`: a Limit order has
"limit_price" = `dblPrice1` (and no "stop_price"); a Stop order has "stop_price" =
`dblPrice1`, its first price (and no "limit_price"); a StopLimit order has "limit_price" =
`dblPrice1` and "stop_price" = `dblPrice2`. For every order, the second price has no
influence on the request of a Market, Limit or Stop order, and the first price none on
the request of a Market order. -/
theorem C22_price_slots (ndebug : Bool) (trd : TableRowDef) :
    (trd.eOrderSide = .Buy ∨ trd.eOrderSide = .Sell → trd.eOrderType = .Limit →
      ∃ body, Provider.request ndebug trd = .ok body ∧
        body.find "limit_price" = some (.number trd.dblPrice1) ∧
        body.find "stop_price" = none) ∧
    (trd.eOrderSide = .Buy ∨ trd.eOrderSide = .Sell → trd.eOrderType = .Stop →
      ∃ body, Provider.request ndebug trd = .ok body ∧
        body.find "stop_price" = some (.number trd.dblPrice1) ∧
        body.find "limit_price" = none) ∧
    (trd.eOrderSide = .Buy ∨ trd.eOrderSide = .Sell → trd.eOrderType = .StopLimit →
      ∃ body, Provider.request ndebug trd = .ok body ∧
        body.find "limit_price" = some (.number trd.dblPrice1) ∧
        body.find "stop_price" = some (.number trd.dblPrice2)) ∧
    (trd.eOrderType = .Market ∨ trd.eOrderType = .Limit ∨ trd.eOrderType = .Stop →
      ∀ p2 : Dbl, Provider.request ndebug { trd with dblPrice2 := p2 } =
        Provider.request ndebug trd) ∧
    (trd.eOrderType = .Market →
      ∀ p1 : Dbl, Provider.request ndebug { trd with dblPrice1 := p1 } =
        Provider.request ndebug trd) := by
  obtain ⟨id, q, side, type, p1, p2⟩ := trd
  refine ⟨fun hs ht => ?_, fun hs ht => ?_, fun hs ht => ?_, fun ht p => ?_, fun ht p => ?_⟩
  · simp only at hs ht
    subst ht
    rcases hs with hs | hs <;> subst hs <;>
      simp [Provider.request, JObject.assign, JObject.find, List.lookup,
        -List.lookup_eq_none_iff]
  · simp only at hs ht
    subst ht
    rcases hs with hs | hs <;> subst hs <;>
      simp [Provider.request, JObject.assign, JObject.find, List.lookup,
        -List.lookup_eq_none_iff]
  · simp only at hs ht
    subst ht
    rcases hs with hs | hs <;> subst hs <;>
      simp [Provider.request, JObject.assign, JObject.find, List.lookup]
  · simp only at ht
    rcases ht with ht | ht | ht <;> subst ht <;> cases side <;> cases ndebug <;>
      simp [Provider.request, JObject.assign]
  · simp only at ht
    subst ht
    cases side <;> cases ndebug <;> simp [Provider.request, JObject.assign]

/-- Witness of C22: a stop SELL with first price 9.5 and second price 9.4 carries 9.5 in
"stop_price". -/
theorem C22_price_slots_witness :
    ∃ body,
      Provider.request false
          { idInstrument := "GLD", nOrderQuantity := 100, eOrderSide := .Sell,
            eOrderType := .Stop, dblPrice1 := .fin 9.5, dblPrice2 := .fin 9.4 } = .ok body ∧
        body.find "stop_price" = some (.number (.fin 9.5)) ∧
        body.find "limit_price" = none :=
  (C22_price_slots false
    { idInstrument := "GLD", nOrderQuantity := 100, eOrderSide := .Sell,
      eOrderType := .Stop, dblPrice1 := .fin 9.5, dblPrice2 := .fin 9.4 }).2.1
    (Or.inr rfl) rfl

end AutoTrade
